import Mathlib

/-!
Shallow embedding of the PowerWorld aux-file language tooling
(`src/extension.ts`): the tokenizer, comment stripper, block detectors,
header resolver, SUBDATA tracker, the validator state machine and the
hover provider, together with theorems settling the specification claims.

Strings are modelled as `List Char`; a document is a `List (List Char)`
of lines (the source splits the buffer on newlines).  JavaScript string
primitives (`trim`, `indexOf`, `lastIndexOf`, `substring`, …) are
modelled explicitly; `indexOf`-style results use `Int` with `-1` as the
JS "not found" sentinel.
-/

/-- Convert a Lean string literal to the `List Char` representation. -/
def cl (s : String) : List Char := s.data

/-- JavaScript whitespace (the characters relevant to `trim` and `\s`
for the inputs at hand). -/
def isSpaceJS (c : Char) : Bool :=
  c == ' ' || c == '\t' || c == '\n' || c == '\r' || c == '\x0b' || c == '\x0c'

/-- JavaScript `String.prototype.trim`. -/
def trimJS (s : List Char) : List Char :=
  ((s.dropWhile isSpaceJS).reverse.dropWhile isSpaceJS).reverse

/-- JavaScript `String.prototype.trimEnd`. -/
def trimEndJS (s : List Char) : List Char :=
  (s.reverse.dropWhile isSpaceJS).reverse

/-- Regex class `\w` = `[A-Za-z0-9_]` (code points of `A`-`Z`,
`a`-`z`, `0`-`9`, `_`). -/
def isWordChar (c : Char) : Bool :=
  (65 ≤ c.toNat && c.toNat ≤ 90) || (97 ≤ c.toNat && c.toNat ≤ 122) ||
    (48 ≤ c.toNat && c.toNat ≤ 57) || c == '_'

/-- Regex class `[A-Za-z_]`. -/
def isAlphaUnd (c : Char) : Bool :=
  (65 ≤ c.toNat && c.toNat ≤ 90) || (97 ≤ c.toNat && c.toNat ≤ 122) || c == '_'

/-- Case folding used for the `/i` regex flag and `toLowerCase`. -/
def lowerChars (s : List Char) : List Char := s.map Char.toLower

/-- `pat` is a prefix of `s` (JS `startsWith`). -/
def strStarts : List Char → List Char → Bool
  | [], _ => true
  | _ :: _, [] => false
  | p :: ps, c :: cs => p == c && strStarts ps cs

/-- `pat` is a suffix of `s` (JS `endsWith`). -/
def strEnds (pat s : List Char) : Bool := strStarts pat.reverse s.reverse

/-- JS `endsWith` for a single character. -/
def endsWithChar (s : List Char) (c : Char) : Bool := strEnds [c] s

/-- Match a literal case-insensitively at the head, returning the rest. -/
def dropLitCI : List Char → List Char → Option (List Char)
  | [], s => some s
  | _ :: _, [] => none
  | p :: ps, c :: cs => if c.toLower = p.toLower then dropLitCI ps cs else none

/-- JS `indexOf` for a single character, `-1` when absent. -/
def jsIndexOfChar (s : List Char) (c : Char) : Int :=
  match s.indexOf? c with
  | some n => (n : Int)
  | none => -1

/-- JS `lastIndexOf` for a single character, `-1` when absent. -/
def jsLastIndexOfChar (s : List Char) (c : Char) : Int :=
  match s.reverse.indexOf? c with
  | some n => ((s.length - 1 - n : Nat) : Int)
  | none => -1

/-- First index `q ≥ from` with `pat` a prefix of `s.drop q`, as an
`Option`; `fuel` bounds the search (callers pass `s.length + 1`). -/
def indexOfFromAux (s pat : List Char) : Nat → Nat → Option Nat
  | 0, _ => none
  | fuel + 1, q =>
    if strStarts pat (s.drop q) then some q else indexOfFromAux s pat fuel (q + 1)

/-- First occurrence of `pat` in `s` at or after position `p`. -/
def indexOfFrom (s pat : List Char) (p : Nat) : Option Nat :=
  if p ≤ s.length then indexOfFromAux s pat (s.length + 1 - p) p else none

/-- JS `String.prototype.indexOf(pat, from)` with `Int` positions. -/
def jsIndexOfStrFrom (s pat : List Char) (f : Int) : Int :=
  match indexOfFrom s pat f.toNat with
  | some n => (n : Int)
  | none => -1

/-- JS `String.prototype.lastIndexOf(pat)`. -/
def jsLastIndexOfStr (s pat : List Char) : Int :=
  (List.range (s.length + 1)).foldl
    (fun acc q => if strStarts pat (s.drop q) then (q : Int) else acc) (-1)

/-- JS `substring(a)` (clamping negative to 0). -/
def jsSubstringFrom (s : List Char) (a : Int) : List Char := s.drop a.toNat

/-- JS `substring(a, b)` for `a ≤ b` (the only shape the source uses). -/
def jsSubstring (s : List Char) (a b : Int) : List Char :=
  (s.take b.toNat).drop a.toNat

/-- JS `substring(0, b)`. -/
def jsSubstringTo (s : List Char) (b : Int) : List Char := s.take b.toNat

/-- Line `i` of a document (`document.lineAt(i).text`). -/
def lineAt (doc : List (List Char)) (i : Nat) : List Char := doc.getD i []

/-- Decimal rendering of a count, for diagnostic messages. -/
def natChars (n : Nat) : List Char := (Nat.repr n).data

/-! ## Tokenizer (`parseDataLine`) and comment stripper -/

/-- Scanner of `parseDataLine` (`extension.ts:1093-1121`): `prev` is the
previously examined character (`lineText[i-1]`), `inQ` the `inQuotes`
flag, `cur` the pending field characters in reverse order. -/
def pdlGo : List Char → Option Char → Bool → List Char → List (List Char)
  | [], _, _, cur =>
    if trimJS cur.reverse ≠ [] then [trimJS cur.reverse] else []
  | c :: rest, prev, inQ, cur =>
    if c = '"' ∧ prev ≠ some '\\' then
      pdlGo rest (some c) (!inQ) (c :: cur)
    else if c = ' ' ∧ inQ = false then
      (if trimJS cur.reverse ≠ [] then [trimJS cur.reverse] else []) ++
        pdlGo rest (some c) inQ []
    else
      pdlGo rest (some c) inQ (c :: cur)

/-- `parseDataLine` (`extension.ts:1093` and the identical copy at
`extension.ts:539`): quote-aware whitespace tokenizer. -/
def parseDataLine (lineText : List Char) : List (List Char) :=
  pdlGo lineText none false []

/-- Instrumented twin of `pdlGo` that additionally records, for each
emitted field, the index at which its pending run began.  `i` is the
current scan position; `cur = some (s, rev)` when the pending run began
at index `s`. -/
def pdlIdxGo : List Char → Nat → Option Char → Bool →
    Option (Nat × List Char) → List (Nat × List Char)
  | [], _, _, _, cur =>
    match cur with
    | none => []
    | some (s, rev) =>
      if trimJS rev.reverse ≠ [] then [(s, trimJS rev.reverse)] else []
  | c :: rest, i, prev, inQ, cur =>
    if c = '"' ∧ prev ≠ some '\\' then
      pdlIdxGo rest (i + 1) (some c) (!inQ)
        (match cur with
         | none => some (i, [c])
         | some (s, rev) => some (s, c :: rev))
    else if c = ' ' ∧ inQ = false then
      (match cur with
       | none => []
       | some (s, rev) =>
         if trimJS rev.reverse ≠ [] then [(s, trimJS rev.reverse)] else []) ++
        pdlIdxGo rest (i + 1) (some c) inQ none
    else
      pdlIdxGo rest (i + 1) (some c) inQ
        (match cur with
         | none => some (i, [c])
         | some (s, rev) => some (s, c :: rev))

/-- `parseDataLine` with the start offset of each field. -/
def parseDataLineIdx (lineText : List Char) : List (Nat × List Char) :=
  pdlIdxGo lineText 0 none false none

/-- Scanner of `removeEndOfLineComment` (`extension.ts:933-950`): on a
`//` outside quotes it returns the trimmed prefix scanned so far,
otherwise the original line unchanged. -/
def reolGo (orig : List Char) : List Char → Option Char → Bool → List Char → List Char
  | [], _, _, _ => orig
  | c :: rest, prev, inQ, acc =>
    if c = '"' ∧ prev ≠ some '\\' then
      reolGo orig rest (some c) (!inQ) (c :: acc)
    else if c = '/' ∧ rest.headD ' ' = '/' ∧ inQ = false then
      trimJS acc.reverse
    else
      reolGo orig rest (some c) inQ (c :: acc)

/-- `removeEndOfLineComment` (`extension.ts:933`). -/
def removeEndOfLineComment (lineText : List Char) : List Char :=
  reolGo lineText lineText none false []

example : parseDataLine (cl "A \"B C\" D") = [cl "A", cl "\"B C\"", cl "D"] := by decide
example : parseDataLine (cl "A \\\"B C") = [cl "A", cl "\\\"B", cl "C"] := by decide
example : parseDataLineIdx (cl "1 \"Alpha\" 2") =
    [(0, cl "1"), (2, cl "\"Alpha\""), (10, cl "2")] := by decide
example : removeEndOfLineComment (cl "Gen 1 2 // comment") = cl "Gen 1 2" := by decide
example : removeEndOfLineComment (cl "Gen \"//\" 2") = cl "Gen \"//\" 2" := by decide

/-! ## Regex recognizers

Each fixed regex of the source is implemented as a maximal-munch
recognizer.  All the character classes adjacent in these regexes are
disjoint (`\s`, `\w`, a literal), so greedy matching without
backtracking is exactly the regex semantics. -/

/-- `/^\s*script\s*(\w+)?\s*\{/i` — returns the (possibly empty)
captured name. -/
def matchScriptBrace (s : List Char) : Option (List Char) :=
  match dropLitCI (cl "script") (s.dropWhile isSpaceJS) with
  | none => none
  | some r1 =>
    let r2 := r1.dropWhile isSpaceJS
    let nm := r2.takeWhile isWordChar
    match (r2.dropWhile isWordChar).dropWhile isSpaceJS with
    | '\x7b' :: _ => some nm
    | _ => none

/-- `/^\s*script\s*(\w+)?\s*$/i` — returns the captured name. -/
def matchScriptNoBrace (s : List Char) : Option (List Char) :=
  match dropLitCI (cl "script") (s.dropWhile isSpaceJS) with
  | none => none
  | some r1 =>
    let r2 := r1.dropWhile isSpaceJS
    let nm := r2.takeWhile isWordChar
    match (r2.dropWhile isWordChar).dropWhile isSpaceJS with
    | [] => some nm
    | _ :: _ => none

/-- `/^\s*DATA\s*\(/i`. -/
def matchDataParen (s : List Char) : Bool :=
  match dropLitCI (cl "data") (s.dropWhile isSpaceJS) with
  | none => false
  | some r =>
    match r.dropWhile isSpaceJS with
    | '(' :: _ => true
    | _ => false

/-- `/^([A-Za-z_][A-Za-z0-9_]*)\s*\(/` anchored at column 0 — returns
the captured identifier. -/
def matchNameParenCol0 (s : List Char) : Option (List Char) :=
  match s with
  | c :: _ =>
    if isAlphaUnd c then
      match (s.dropWhile isWordChar).dropWhile isSpaceJS with
      | '(' :: _ => some (s.takeWhile isWordChar)
      | _ => none
    else none
  | [] => none

/-- `/^\s*([A-Za-z_][A-Za-z0-9_]*)\s*\(/` — leading indentation allowed. -/
def matchNameParenLeading (s : List Char) : Option (List Char) :=
  matchNameParenCol0 (s.dropWhile isSpaceJS)

/-- `/^\s*[A-Za-z_][A-Za-z0-9_]*\s*\(/` as a Boolean test. -/
def matchNameParenIndent (s : List Char) : Bool :=
  (matchNameParenLeading s).isSome

/-- `/^\s*DATA\s*\(\s*([A-Za-z_][A-Za-z0-9_]*)\s*,\s*\[([^\]]+)\]/i` —
returns the captured block name and the raw bracketed parameter text. -/
def matchDataHeaderFull (s : List Char) : Option (List Char × List Char) :=
  match dropLitCI (cl "data") (s.dropWhile isSpaceJS) with
  | none => none
  | some r1 =>
    match r1.dropWhile isSpaceJS with
    | '(' :: r2 =>
      let r3 := r2.dropWhile isSpaceJS
      match r3 with
      | c :: _ =>
        if isAlphaUnd c then
          let nm := r3.takeWhile isWordChar
          match (r3.dropWhile isWordChar).dropWhile isSpaceJS with
          | ',' :: r4 =>
            match r4.dropWhile isSpaceJS with
            | '[' :: r5 =>
              let content := r5.takeWhile (fun d => d ≠ ']')
              if content ≠ [] ∧ (r5.dropWhile (fun d => d ≠ ']')).headD ' ' = ']' then
                some (nm, content)
              else none
            | _ => none
          | _ => none
        else none
      | [] => none
    | _ => none

/-- `/^\s*<SUBDATA\s+[^>]*>/i` — an opening SUBDATA tag requires at
least one whitespace character after the tag name. -/
def matchSubdataOpen (s : List Char) : Bool :=
  match (s.dropWhile isSpaceJS) with
  | '<' :: r =>
    match dropLitCI (cl "subdata") r with
    | some (c :: cs) => isSpaceJS c && cs.contains '>'
    | _ => false
  | _ => false

/-- `/^\s*<\/SUBDATA>/i`. -/
def matchSubdataClose (s : List Char) : Bool :=
  (dropLitCI (cl "</subdata>") (s.dropWhile isSpaceJS)).isSome

example : matchScriptBrace (cl "SCRIPT Test \x7b") = some (cl "Test") := by decide
example : matchScriptBrace (cl "script\x7b") = some [] := by decide
example : matchSubdataOpen (cl "<SUBDATA NAME>") = true := by decide
example : matchSubdataOpen (cl "<SUBDATA>") = false := by decide
example : matchDataHeaderFull (cl "DATA (CONTINGENCY, [CTGLabel, Category], AUXDEF)")
    = some (cl "CONTINGENCY", cl "CTGLabel, Category") := by decide

/-! ## Block Detector (`BlockDetectionUtils`) -/

inductive SType | sameLine | nextLine | noneT
deriving DecidableEq

structure ScriptInfo where
  stype : SType
  name : List Char
  hasContent : Bool
  contentStartLine : Nat
  isComplete : Bool
deriving DecidableEq

/-- `BlockDetectionUtils.detectScriptBlock` (`extension.ts:5-46`). -/
def detectScriptBlock (line : List Char) (lineIndex : Nat) : ScriptInfo :=
  let lineText := trimJS line
  match matchScriptBrace lineText with
  | some nm =>
    let scriptName := if nm = [] then cl "Unnamed Script" else nm
    let openIdx := jsIndexOfChar lineText '\x7b'
    let closeIdx := jsLastIndexOfChar lineText '\x7d'
    let isComplete := openIdx ≠ -1 ∧ closeIdx ≠ -1 ∧ closeIdx > openIdx
    let afterBrace := jsSubstringFrom lineText (openIdx + 1)
    let hasContent := afterBrace ≠ [] ∧ trimJS afterBrace ≠ [] ∧
      ¬ strStarts (cl "\x7d") (trimJS afterBrace)
    ⟨SType.sameLine, scriptName, decide hasContent, lineIndex, decide isComplete⟩
  | none =>
    match matchScriptNoBrace lineText with
    | some nm =>
      let scriptName := if nm = [] then cl "Unnamed Script" else nm
      ⟨SType.nextLine, scriptName, false, lineIndex + 1, false⟩
    | none => ⟨SType.noneT, [], false, lineIndex, false⟩

inductive DType | data | function | noneT
deriving DecidableEq

structure DataInfo where
  dtype : DType
  name : List Char
  hasParameters : Bool
deriving DecidableEq

/-- `BlockDetectionUtils.detectDataBlock` (`extension.ts:48-81`). -/
def detectDataBlock (line : List Char) : DataInfo :=
  let lineText := trimJS line
  if matchDataParen lineText then ⟨DType.data, cl "DATA", true⟩
  else
    match matchNameParenCol0 line with
    | some nm =>
      if lowerChars nm ≠ cl "data" then ⟨DType.function, nm, true⟩
      else ⟨DType.noneT, [], false⟩
    | none => ⟨DType.noneT, [], false⟩

/-- `BlockDetectionUtils.detectSingleLineBlock` (`extension.ts:83-103`). -/
def detectSingleLineBlock (line : List Char) : Bool × List Char :=
  let lineText := trimJS line
  let openIdx := jsIndexOfChar lineText '\x7b'
  let closeIdx := jsLastIndexOfChar lineText '\x7d'
  if openIdx ≠ -1 ∧ closeIdx ≠ -1 ∧ closeIdx > openIdx then
    (true, trimJS (jsSubstring lineText (openIdx + 1) closeIdx))
  else (false, [])

/-- Character scan of one line for `findClosingBrace`: `.inl ()` when a
`}` brought the running count to zero, else the updated count. -/
def fcbChars : Int → List Char → Sum Unit Int
  | cnt, [] => Sum.inr cnt
  | cnt, c :: cs =>
    if c = '\x7b' then fcbChars (cnt + 1) cs
    else if c = '\x7d' then
      (if cnt - 1 = 0 then Sum.inl () else fcbChars (cnt - 1) cs)
    else fcbChars cnt cs

/-- Line scan of `findClosingBrace` from line `i`. -/
def fcbScan : Int → Nat → List (List Char) → Option Nat
  | _, _, [] => none
  | cnt, i, l :: ls =>
    match fcbChars cnt l with
    | Sum.inl () => some i
    | Sum.inr cnt2 => fcbScan cnt2 (i + 1) ls

/-- `BlockDetectionUtils.findClosingBrace` (`extension.ts:105-120`). -/
def findClosingBrace (lines : List (List Char)) (startLine : Nat) : Nat :=
  match fcbScan 0 startLine (lines.drop startLine) with
  | some i => i
  | none => lines.length - 1

example : detectScriptBlock (cl "SCRIPT Test \x7b") 0 =
    ⟨SType.sameLine, cl "Test", false, 0, false⟩ := by decide
example : (detectDataBlock (cl "Bus (Number, Name)")).dtype = DType.function := by decide
example : (detectDataBlock (cl "  Bus (Number)")).dtype = DType.noneT := by decide
example : findClosingBrace [cl "SCRIPT T \x7b", cl "x", cl "\x7d"] 0 = 2 := by decide
example : findClosingBrace [cl "SCRIPT T \x7b", cl "x"] 0 = 1 := by decide

/-! ## Header Resolver -/

structure HeaderInfo where
  blockName : List Char
  parameters : List (List Char)
deriving DecidableEq

/-- `parseParameters` (`extension.ts:1088-1091`): split on commas, trim,
drop empties. -/
def parseParameters (paramText : List Char) : List (List Char) :=
  ((paramText.splitOn ',').map trimJS).filter (fun p => p ≠ [])

/-- Character scan of one line for `extractParameters`
(`extension.ts:1056-1086`): `.inl` is the early return on the closing
parenthesis at depth 0, `.inr` the carried `(paramText, parenCount,
foundStart)` state (`paramText` reversed). -/
def extractChars : List Char × Int × Bool → List Char → Sum (List (List Char)) (List Char × Int × Bool)
  | (acc, depth, found), [] => Sum.inr (acc, depth, found)
  | (acc, depth, found), c :: cs =>
    if c = '(' then extractChars (acc, depth + 1, true) cs
    else if c = ')' then
      if depth - 1 = 0 ∧ found = true then Sum.inl (parseParameters acc.reverse)
      else extractChars (acc, depth - 1, found) cs
    else if found = true ∧ depth > 0 then extractChars (c :: acc, depth, found) cs
    else extractChars (acc, depth, found) cs

/-- Line loop of `extractParameters`; a space joins consecutive lines
while the parameter list is still open. -/
def extractLoop : List Char × Int × Bool → List (List Char) → List (List Char)
  | _, [] => []
  | st, l :: ls =>
    match extractChars st l with
    | Sum.inl r => r
    | Sum.inr (acc, depth, found) =>
      let acc2 := if found = true ∧ depth > 0 then ' ' :: acc else acc
      extractLoop (acc2, depth, found) ls

/-- `extractParameters` (`extension.ts:1056`, identical copy at 502). -/
def extractParameters (doc : List (List Char)) (startLine : Nat) : List (List Char) :=
  extractLoop ([], 0, false) (doc.drop startLine)

/-- One backward-scan step of `findDataBlockHeader`
(`extension.ts:1015-1054`, identical copy at 461-500) at line `i`;
`cont` is the value produced by continuing the scan above line `i`. -/
def fdbhStep (doc : List (List Char)) (i : Nat) (cont : Option HeaderInfo) : Option HeaderInfo :=
  let line := lineAt doc i
  let boundary : Option HeaderInfo :=
    if trimJS line = cl "\x7d" ∨ matchNameParenIndent line = true ∨ matchDataParen line = true
    then none else cont
  let afterData : Option HeaderInfo :=
    match matchNameParenLeading line with
    | some nm =>
      if lowerChars nm = cl "data" then cont
      else
        let ps := extractParameters doc i
        if ps ≠ [] then some ⟨nm, ps⟩ else boundary
    | none => boundary
  match matchDataHeaderFull line with
  | some (nm, ptext) =>
    let ps := parseParameters ptext
    if ps ≠ [] then some ⟨nm, ps⟩ else afterData
  | none => afterData

/-- Backward scan of `findDataBlockHeader` from line `i` down to 0. -/
def fdbhGo (doc : List (List Char)) : Nat → Option HeaderInfo
  | 0 => fdbhStep doc 0 none
  | i + 1 => fdbhStep doc (i + 1) (fdbhGo doc i)

/-- `findDataBlockHeader` (`extension.ts:1015`). -/
def findDataBlockHeader (doc : List (List Char)) (currentLine : Nat) : Option HeaderInfo :=
  fdbhGo doc currentLine

/-! ## SUBDATA Region Tracker -/

/-- One backward-scan step of `isInsideSubdataBlock`
(`extension.ts:1123-1147`, identical copy at 588-614) at line `i`. -/
def sdStep (doc : List (List Char)) (i : Nat) (cont : Bool) : Bool :=
  let line := trimJS (lineAt doc i)
  if matchSubdataClose line then false
  else if matchSubdataOpen line then true
  else if line = cl "\x7b" ∨ line = cl "\x7d" ∨
      matchNameParenIndent line = true ∨ matchDataParen line = true then false
  else cont

/-- Backward scan of `isInsideSubdataBlock` from line `i` down to 0. -/
def sdGo (doc : List (List Char)) : Nat → Bool
  | 0 => sdStep doc 0 false
  | i + 1 => sdStep doc (i + 1) (sdGo doc i)

/-- `isInsideSubdataBlock` (`extension.ts:1123`). -/
def isInsideSubdataBlock (doc : List (List Char)) (currentLine : Nat) : Bool :=
  sdGo doc currentLine

example : findDataBlockHeader [cl "Bus (Number, Name)", cl "1 \"Alpha\""] 1 =
    some ⟨cl "Bus", [cl "Number", cl "Name"]⟩ := by decide
example : findDataBlockHeader [cl "DATA (CONTINGENCY, [CTGLabel, Category])", cl "x y"] 1 =
    some ⟨cl "CONTINGENCY", [cl "CTGLabel", cl "Category"]⟩ := by decide
example : findDataBlockHeader [cl "Bus (Number)", cl "\x7d", cl "1"] 2 = none := by decide
example : isInsideSubdataBlock [cl "Bus (N)", cl "\x7b", cl "<SUBDATA X>", cl "1 2"] 3 = true := by decide
example : isInsideSubdataBlock [cl "Bus (N)", cl "\x7b", cl "<SUBDATA X>", cl "</SUBDATA>", cl "1 2"] 4 = false := by decide

/-! ## Field positions -/

/-- Loop of `findExtraFieldPosition` advancing past the expected fields
by first-occurrence search (`extension.ts:999-1005`). -/
def fepLoop (L : List Char) : List (List Char) → Int → Int
  | [], cp => cp
  | f :: fs, cp =>
    let fieldStart := jsIndexOfStrFrom L f cp
    fepLoop L fs (fieldStart + (f.length : Int))

/-- The `while` loop of `findExtraFieldPosition` skipping spaces
(`extension.ts:1008-1010`); `fuel` bounds the iteration. -/
def skipSpacesInt (L : List Char) : Nat → Int → Int
  | 0, p => p
  | fuel + 1, p =>
    if p < (L.length : Int) ∧ 0 ≤ p ∧ L.getD p.toNat ' ' = ' '
    then skipSpacesInt L fuel (p + 1) else p

/-- `findExtraFieldPosition` (`extension.ts:993-1013`). -/
def findExtraFieldPosition (L : List Char) (expectedFieldCount : Nat) : Int :=
  let fields := parseDataLine L
  if fields.length ≤ expectedFieldCount then -1
  else
    let cp := fepLoop L (fields.take expectedFieldCount) 0
    let cp2 := skipSpacesInt L (L.length + 1) cp
    if cp2 < (L.length : Int) then cp2 else -1

/-- Loop of `findFieldAtPosition` (`extension.ts:569-586`). -/
def ffapGo (lineText : List Char) (position : Int) : List (List Char) → Nat → Int → Int
  | [], _, _ => -1
  | f :: fs, i, cp =>
    let fieldStart := jsIndexOfStrFrom lineText f cp
    let fieldEnd := fieldStart + (f.length : Int)
    if position ≥ fieldStart ∧ position ≤ fieldEnd then (i : Int)
    else ffapGo lineText position fs (i + 1) fieldEnd

/-- `findFieldAtPosition` (`extension.ts:569`). -/
def findFieldAtPosition (lineText : List Char) (position : Int) : Int :=
  ffapGo lineText position (parseDataLine lineText) 0 0

example : findExtraFieldPosition (cl "1 \"Alpha\" 2") 2 = 10 := by decide
example : findExtraFieldPosition (cl "1 \"Alpha\"") 2 = -1 := by decide
example : findExtraFieldPosition (cl "a\t b") 1 = 1 := by decide
example : findFieldAtPosition (cl "1 \"Alpha\" 2") 4 = 1 := by decide

/-! ## Diagnostics and validator state -/

inductive Severity | error | warning
deriving DecidableEq

structure DPos where
  line : Nat
  character : Nat
deriving DecidableEq

structure Diag where
  startPos : DPos
  endPos : DPos
  message : List Char
  severity : Severity
deriving DecidableEq

def tooManyMsg (expected found extra : Nat) : List Char :=
  cl "Too many fields: expected " ++ natChars expected ++ cl ", found " ++
    natChars found ++ cl ". Extra field(s): " ++ natChars extra

def missingMsg (expected found missing : Nat) : List Char :=
  cl "Missing fields: expected " ++ natChars expected ++ cl ", found " ++
    natChars found ++ cl ". Missing field(s): " ++ natChars missing

def unclosedScriptMsg (name : List Char) : List Char :=
  cl "SCRIPT block \"" ++ name ++ cl "\" is missing a closing brace (\x7d)"

def unclosedDataMsg (name : List Char) : List Char :=
  cl "DATA block \"" ++ name ++ cl "\" is missing a closing brace (\x7d)"

def semicolonMsg : List Char :=
  cl "Function call in SCRIPT block must end with a semicolon (;)"

/-- Validator running state (`extension.ts:661-667`). -/
structure VState where
  insideDataBlock : Bool
  insideScriptBlock : Bool
  currentDataBlockInfo : Option HeaderInfo
  unclosedScriptBlock : Option (Nat × List Char)
  unclosedDataBlock : Option (Nat × List Char)
deriving DecidableEq

def initVState : VState := ⟨false, false, none, none, none⟩

/-- The pending-unclosed-block Error diagnostics (the same emission
appears at `extension.ts:682-707`, 794-820 and 903-928). -/
def flushUnclosed (doc : List (List Char)) (st : VState) : List Diag :=
  (match st.unclosedScriptBlock with
   | some (l, n) =>
     [⟨⟨l, 0⟩, ⟨l, (lineAt doc l).length⟩, unclosedScriptMsg n, Severity.error⟩]
   | none => []) ++
  (match st.unclosedDataBlock with
   | some (l, n) =>
     [⟨⟨l, 0⟩, ⟨l, (lineAt doc l).length⟩, unclosedDataMsg n, Severity.error⟩]
   | none => [])

/-- `validateScriptLine` (`extension.ts:952-991`). -/
def validateScriptLine (line : List Char) (lineNumber : Nat) : List Diag :=
  let lineText := trimJS line
  if lineText = [] ∨ lineText = cl "\x7b" ∨ lineText = cl "\x7d" then []
  else
    let lineWithoutComments := removeEndOfLineComment lineText
    let contentToValidate :=
      if strStarts (cl "\x7b") lineWithoutComments ∧ strEnds (cl "\x7d") lineWithoutComments
      then trimJS lineWithoutComments.tail.dropLast
      else lineWithoutComments
    if (matchNameParenCol0 contentToValidate).isSome ∧ ¬ endsWithChar contentToValidate ';' then
      let li := jsLastIndexOfStr line (cl "//")
      let upto := if li ≥ 0 then li else (line.length : Int)
      let semicolonPos := (trimEndJS (jsSubstringTo line upto)).length
      [⟨⟨lineNumber, semicolonPos⟩, ⟨lineNumber, semicolonPos⟩, semicolonMsg, Severity.error⟩]
    else []

/-- SCRIPT-header branch of the `validateDocument` line loop
(`extension.ts:680-738`). -/
def scriptHeaderStep (doc : List (List Char)) (i : Nat) (lineText : List Char)
    (scriptInfo : ScriptInfo) (st : VState) : VState × List Diag :=
  let d1 := flushUnclosed doc st
  if scriptInfo.stype = SType.sameLine ∧ scriptInfo.isComplete = true then
    let sl := detectSingleLineBlock lineText
    let d2 := if sl.2 ≠ [] then validateScriptLine sl.2 i else []
    (⟨false, false, none, none, none⟩, d1 ++ d2)
  else
    let st2 : VState := ⟨false, true, none, some (i, scriptInfo.name), none⟩
    let d2 :=
      if scriptInfo.stype = SType.sameLine ∧ scriptInfo.hasContent = true then
        let afterBrace := jsSubstringFrom lineText (jsIndexOfChar lineText '\x7b' + 1)
        if afterBrace ≠ [] ∧ trimJS afterBrace ≠ [] then validateScriptLine afterBrace i
        else []
      else []
    (st2, d1 ++ d2)

/-- Opening-brace branch of the line loop (`extension.ts:741-776`). -/
def openBraceStep (i : Nat) (lineText : List Char) (st : VState) : VState × List Diag :=
  if st.insideScriptBlock then
    let openIdx := jsIndexOfChar lineText '\x7b'
    let closeIdx := jsLastIndexOfChar lineText '\x7d'
    if openIdx ≠ -1 ∧ closeIdx ≠ -1 ∧ closeIdx > openIdx then
      let content := trimJS (jsSubstring lineText (openIdx + 1) closeIdx)
      let d := if content ≠ [] then validateScriptLine content i else []
      ({ st with insideScriptBlock := false, unclosedScriptBlock := none }, d)
    else if lineText = cl "\x7b" then (st, [])
    else
      let afterBrace := jsSubstringFrom lineText (jsIndexOfChar lineText '\x7b' + 1)
      let d := if trimJS afterBrace ≠ [] then validateScriptLine afterBrace i else []
      (st, d)
  else
    let st2 := { st with insideDataBlock := true, insideScriptBlock := false }
    match st.currentDataBlockInfo with
    | some info =>
      ({ st2 with unclosedDataBlock := some (i, info.blockName),
                  unclosedScriptBlock := none }, [])
    | none => (st2, [])

/-- Field-count validation of one data row against the resolved header
(`extension.ts:842-900`): the SUBDATA suppressions, comment stripping,
tokenization and the two count comparisons. -/
def dataLineDiags (doc : List (List Char)) (i : Nat) (info : HeaderInfo)
    (lineText : List Char) : List Diag :=
  if isInsideSubdataBlock doc i then []
  else if matchSubdataOpen lineText ∨ matchSubdataClose lineText then []
  else
    let lineWithoutComments := removeEndOfLineComment lineText
    if trimJS lineWithoutComments = [] then []
    else
      let dataFields := parseDataLine lineWithoutComments
      if dataFields = [] then []
      else
        let dToo :=
          if dataFields.length > info.parameters.length then
            let extraPos := findExtraFieldPosition lineWithoutComments info.parameters.length
            if extraPos ≠ -1 then
              [⟨⟨i, extraPos.toNat⟩, ⟨i, lineWithoutComments.length⟩,
                tooManyMsg info.parameters.length dataFields.length
                  (dataFields.length - info.parameters.length), Severity.error⟩]
            else []
          else []
        let dMiss :=
          if dataFields.length < info.parameters.length then
            [⟨⟨i, 0⟩, ⟨i, lineWithoutComments.length⟩,
              missingMsg info.parameters.length dataFields.length
                (info.parameters.length - dataFields.length), Severity.warning⟩]
          else []
        dToo ++ dMiss

/-- The body of the `validateDocument` line loop
(`extension.ts:669-901`) as a transition of the validator state,
returning the new state and the diagnostics emitted at line `i`. -/
def processLine (doc : List (List Char)) (i : Nat) (line : List Char) (st : VState) :
    VState × List Diag :=
  let lineText := trimJS line
  if strStarts (cl "//") lineText ∨ lineText = [] then (st, [])
  else
    let scriptInfo := detectScriptBlock line i
    if scriptInfo.stype ≠ SType.noneT then
      scriptHeaderStep doc i lineText scriptInfo st
    else if strStarts (cl "\x7b") lineText then
      openBraceStep i lineText st
    else if lineText = cl "\x7d" then
      (⟨false, false, none, none, none⟩, [])
    else
      let dataInfo := detectDataBlock line
      if dataInfo.dtype ≠ DType.noneT ∧ ¬ endsWithChar lineText ';' ∧
          st.insideScriptBlock = false ∧ st.insideDataBlock = false then
        let d1 := flushUnclosed doc st
        (⟨false, false, findDataBlockHeader doc i, none, none⟩, d1)
      else if st.insideScriptBlock then
        (st, validateScriptLine line i)
      else
        match st.insideDataBlock, st.currentDataBlockInfo with
        | true, some info => (st, dataLineDiags doc i info lineText)
        | _, _ => (st, [])

/-- The `validateDocument` line loop from line `i` over the remaining
lines. -/
def runLines (doc : List (List Char)) : Nat → List (List Char) → VState → VState × List Diag
  | _, [], st => (st, [])
  | i, l :: ls, st =>
    let r1 := processLine doc i l st
    let r2 := runLines doc (i + 1) ls r1.1
    (r2.1, r1.2 ++ r2.2)

/-- `validateDocument` (`extension.ts:658-931`): run the line loop and
flush any still-pending unclosed-block markers. -/
def validateDocument (doc : List (List Char)) : List Diag :=
  let r := runLines doc 0 doc initVState
  r.2 ++ flushUnclosed doc r.1

/-- The validator state after processing the first `k` lines. -/
def stateAfter (doc : List (List Char)) (k : Nat) : VState :=
  (runLines doc 0 (doc.take k) initVState).1

/-! ## Hover provider -/

structure HoverInfo where
  fieldValue : List Char
  fieldName : List Char
  blockName : List Char
  fieldIndex : Nat
  fieldCount : Nat
deriving DecidableEq

/-- `PowerWorldDataFieldHoverProvider.provideHover`
(`extension.ts:398-459`), as the optional hover payload. -/
def provideHover (doc : List (List Char)) (posLine posChar : Nat) : Option HoverInfo :=
  let rawLine := lineAt doc posLine
  let lineText := trimJS rawLine
  if strStarts (cl "//") lineText ∨ lineText = [] then none
  else if matchNameParenIndent lineText then none
  else if lineText = cl "\x7b" ∨ lineText = cl "\x7d" then none
  else if matchSubdataOpen lineText ∨ matchSubdataClose lineText then none
  else if isInsideSubdataBlock doc posLine then none
  else
    match findDataBlockHeader doc posLine with
    | none => none
    | some info =>
      let dataFields := parseDataLine lineText
      if dataFields = [] then none
      else
        let fieldIndex := findFieldAtPosition rawLine (posChar : Int)
        if fieldIndex = -1 ∨ fieldIndex ≥ (info.parameters.length : Int) then none
        else
          some ⟨dataFields.getD fieldIndex.toNat [], info.parameters.getD fieldIndex.toNat [],
                info.blockName, fieldIndex.toNat, info.parameters.length⟩

example : validateDocument [cl "Bus (Number, Name)", cl "\x7b", cl "1 \"Alpha\" 2", cl "\x7d"] =
    [⟨⟨2, 10⟩, ⟨2, 11⟩, tooManyMsg 2 3 1, Severity.error⟩] := by decide
example : validateDocument [cl "Bus (Number, Name)", cl "\x7b", cl "1", cl "\x7d"] =
    [⟨⟨2, 0⟩, ⟨2, 1⟩, missingMsg 2 1 1, Severity.warning⟩] := by decide
example : validateDocument [cl "Bus (Number, Name)", cl "\x7b", cl "1 \"Alpha\"", cl "\x7d"] = [] := by decide
example : validateDocument [cl "SCRIPT Test \x7b"] =
    [⟨⟨0, 0⟩, ⟨0, 13⟩, unclosedScriptMsg (cl "Test"), Severity.error⟩] := by decide
example : validateDocument [cl "SCRIPT Test \x7b", cl "Delete(Bus)", cl "\x7d"] =
    [⟨⟨1, 11⟩, ⟨1, 11⟩, semicolonMsg, Severity.error⟩] := by decide
example : validateDocument [cl "SCRIPT Test \x7b", cl "Delete(Bus);", cl "\x7d"] = [] := by decide
example : provideHover [cl "Bus (Number, Name)", cl "1 \"Alpha\""] 1 3 =
    some ⟨cl "\"Alpha\"", cl "Name", cl "Bus", 1, 2⟩ := by decide
example : provideHover [cl "Bus (Number, Name)", cl "1 \"Alpha\" 2"] 1 10 = none := by decide

/-! ## Instrumented-tokenizer locations -/

/-- The pending-run characters of the instrumented scanner state. -/
def listOfCur : Option (Nat × List Char) → List Char
  | none => []
  | some (_, r) => r

/-- `F` is a correctly-located token list for line `L` from anchor `p`:
token starts are at or after `p`, gaps contain only spaces, each token
is nonempty, starts with a non-space character, and occupies the line
verbatim at its start. -/
inductive Located (L : List Char) : Nat → List (Nat × List Char) → Prop
  | nil (p : Nat) : Located L p []
  | cons (p s : Nat) (f : List Char) (F : List (Nat × List Char))
      (hps : p ≤ s)
      (hgap : ∀ q, p ≤ q → q < s → L.getD q '?' = ' ')
      (hne : f ≠ [])
      (hhead : f.headD ' ' ≠ ' ')
      (hsub : L.drop s = f ++ L.drop (s + f.length))
      (htail : Located L (s + f.length) F) :
      Located L p ((s, f) :: F)

/-- Scanner-state invariant for `pdlIdxGo` at position `i` with output
anchor `p`. -/
def CurInv (L : List Char) (i p : Nat) (inQ : Bool) :
    Option (Nat × List Char) → Prop
  | none => inQ = false ∧ p ≤ i ∧ (∀ q, p ≤ q → q < i → L.getD q '?' = ' ')
  | some (s, rev) =>
      p ≤ s ∧ (∀ q, p ≤ q → q < s → L.getD q '?' = ' ') ∧
      s + rev.length = i ∧ L.drop s = rev.reverse ++ L.drop i ∧
      rev ≠ [] ∧ rev.reverse.headD ' ' ≠ ' ' ∧
      (inQ = false → rev.headD ' ' ≠ ' ')

/-- End position after laying out the located tokens `F` from anchor
`p`. -/
def locEnd (p : Nat) : List (Nat × List Char) → Nat
  | [] => p
  | (s, f) :: F => locEnd (s + f.length) F

/-! ## Shared lemmas -/

theorem pdlGo_ne_nil : ∀ (rest : List Char) (prev : Option Char) (inQ : Bool)
    (cur : List Char) (f : List Char), f ∈ pdlGo rest prev inQ cur → f ≠ [] := by
  intro rest
  induction rest with
  | nil =>
    intro prev inQ cur f hf
    simp only [pdlGo] at hf
    split at hf <;> simp_all
  | cons c cs ih =>
    intro prev inQ cur f hf
    simp only [pdlGo] at hf
    split at hf
    · exact ih _ _ _ f hf
    · split at hf
      · rcases List.mem_append.1 hf with h | h
        · split at h <;> simp_all
        · exact ih _ _ _ f h
      · exact ih _ _ _ f hf

theorem toLower_of_not_upper (c : Char) (h : ¬ (65 ≤ c.toNat ∧ c.toNat ≤ 90)) :
    c.toLower = c := by
  unfold Char.toLower
  rw [if_neg]
  intro hc
  exact h ⟨hc.1, hc.2⟩

theorem isWordChar_of_toLower (x y : Char) (h : x.toLower = y)
    (hy : isWordChar y = true) : isWordChar x = true := by
  by_cases hu : 65 ≤ x.toNat ∧ x.toNat ≤ 90
  · simp only [isWordChar, Bool.or_eq_true, Bool.and_eq_true, decide_eq_true_eq]
    exact Or.inl (Or.inl (Or.inl ⟨hu.1, hu.2⟩))
  · rw [toLower_of_not_upper x hu] at h
    rw [h]
    exact hy

theorem isAlphaUnd_of_toLower (x y : Char) (h : x.toLower = y)
    (hy : isAlphaUnd y = true) : isAlphaUnd x = true := by
  by_cases hu : 65 ≤ x.toNat ∧ x.toNat ≤ 90
  · simp only [isAlphaUnd, Bool.or_eq_true, Bool.and_eq_true, decide_eq_true_eq]
    exact Or.inl (Or.inl ⟨hu.1, hu.2⟩)
  · rw [toLower_of_not_upper x hu] at h
    rw [h]
    exact hy

theorem dropLitCI_data_dissect (r rest : List Char)
    (h : dropLitCI (cl "data") r = some rest) :
    ∃ a b c d, r = a :: b :: c :: d :: rest ∧ a.toLower = 'd' ∧ b.toLower = 'a' ∧
      c.toLower = 't' ∧ d.toLower = 'a' := by
  rw [show cl "data" = 'd' :: 'a' :: 't' :: 'a' :: ([] : List Char) from rfl] at h
  rcases r with _ | ⟨a, r⟩
  · simp [dropLitCI] at h
  rcases r with _ | ⟨b, r⟩
  · simp only [dropLitCI] at h
    split at h <;> simp_all
  rcases r with _ | ⟨c, r⟩
  · simp only [dropLitCI] at h
    split at h <;> (try split at h) <;> simp_all
  rcases r with _ | ⟨d, r⟩
  · simp only [dropLitCI] at h
    split at h <;> (try split at h) <;> (try split at h) <;> simp_all
  · refine ⟨a, b, c, d, ?_⟩
    have e1 : ('d' : Char).toLower = 'd' := by decide
    have e2 : ('a' : Char).toLower = 'a' := by decide
    have e3 : ('t' : Char).toLower = 't' := by decide
    simp only [dropLitCI] at h
    split at h <;> (try split at h) <;> (try split at h) <;> (try split at h) <;> simp_all

theorem isWordChar_of_space_false (x : Char) (hx : isSpaceJS x = true) :
    isWordChar x = false := by
  simp only [isSpaceJS, Bool.or_eq_true, beq_iff_eq] at hx
  rcases hx with ((((rfl | rfl) | rfl) | rfl) | rfl) | rfl <;> decide

theorem matchDataParen_elim (l : List Char) (h : matchDataParen l = true) :
    ∃ a b c d, matchNameParenLeading l = some [a, b, c, d] ∧
      lowerChars [a, b, c, d] = cl "data" := by
  unfold matchDataParen at h
  split at h
  · exact absurd h (by simp)
  rename_i r hr
  split at h
  case _ t hp =>
    obtain ⟨a, b, c, d, hd, ha, hb, hc, hd2⟩ := dropLitCI_data_dissect _ _ hr
    have wa : isAlphaUnd a = true := isAlphaUnd_of_toLower a 'd' ha (by decide)
    have wwa : isWordChar a = true := isWordChar_of_toLower a 'd' ha (by decide)
    have wwb : isWordChar b = true := isWordChar_of_toLower b 'a' hb (by decide)
    have wwc : isWordChar c = true := isWordChar_of_toLower c 't' hc (by decide)
    have wwd : isWordChar d = true := isWordChar_of_toLower d 'a' hd2 (by decide)
    have hrw : r.takeWhile isWordChar = [] ∧ r.dropWhile isWordChar = r := by
      rcases r with _ | ⟨x, r2⟩
      · exact ⟨rfl, rfl⟩
      · have hxw : isWordChar x = false := by
          by_cases hsx : isSpaceJS x = true
          · exact isWordChar_of_space_false x hsx
          · have hxt : x :: r2 = '(' :: t := by
              rw [← hp]
              rw [List.dropWhile_cons_of_neg (by simp [hsx])]
            rw [List.cons.injEq] at hxt
            rw [hxt.1]
            decide
        exact ⟨by simp [List.takeWhile_cons, hxw], by simp [List.dropWhile_cons, hxw]⟩
    refine ⟨a, b, c, d, ?_, ?_⟩
    · unfold matchNameParenLeading matchNameParenCol0
      rw [hd]
      rw [show (a :: b :: c :: d :: r).takeWhile isWordChar = [a, b, c, d] by
        simp [List.takeWhile_cons, wwa, wwb, wwc, wwd, hrw.1]]
      rw [show (a :: b :: c :: d :: r).dropWhile isWordChar = r by
        simp [List.dropWhile_cons, wwa, wwb, wwc, wwd, hrw.2]]
      rw [hp]
      simp [wa]
    · simp [lowerChars, ha, hb, hc, hd2]
      rfl
  case _ =>
    exact absurd h (by simp)

theorem trim_append (l : List Char) :
    l.dropWhile isSpaceJS =
      trimJS l ++ ((l.dropWhile isSpaceJS).reverse.takeWhile isSpaceJS).reverse := by
  unfold trimJS
  conv_lhs => rw [← (l.dropWhile isSpaceJS).reverse_reverse,
    ← List.takeWhile_append_dropWhile (p := isSpaceJS) (l := (l.dropWhile isSpaceJS).reverse)]
  rw [List.reverse_append]

theorem dropLitCI_head_ne (p c : Char) (ps s : List Char)
    (h : ¬ c.toLower = p.toLower) : dropLitCI (p :: ps) (c :: s) = none := by
  simp only [dropLitCI, if_neg h]

theorem matchDataHeaderFull_rbrace (l s : List Char)
    (hd : l.dropWhile isSpaceJS = '\x7d' :: s) : matchDataHeaderFull l = none := by
  unfold matchDataHeaderFull
  rw [hd, show cl "data" = 'd' :: cl "ata" from rfl,
    dropLitCI_head_ne 'd' '\x7d' (cl "ata") s (by decide)]

theorem matchNameParenLeading_rbrace (l s : List Char)
    (hd : l.dropWhile isSpaceJS = '\x7d' :: s) : matchNameParenLeading l = none := by
  unfold matchNameParenLeading matchNameParenCol0
  rw [hd]
  simp [show isAlphaUnd '\x7d' = false from by decide]

theorem fdbhStep_stops_rbrace (doc : List (List Char)) (i : Nat) (cont : Option HeaderInfo)
    (h : trimJS (lineAt doc i) = cl "\x7d") : fdbhStep doc i cont = none := by
  obtain ⟨s, hs⟩ : ∃ s, (lineAt doc i).dropWhile isSpaceJS = '\x7d' :: s :=
    ⟨_, by rw [trim_append (lineAt doc i), h]; rfl⟩
  unfold fdbhStep
  dsimp only
  rw [matchDataHeaderFull_rbrace _ _ hs, matchNameParenLeading_rbrace _ _ hs]
  simp only [matchNameParenIndent, matchNameParenLeading_rbrace _ _ hs]
  simp [h]

theorem fdbhStep_stops_unresolved (doc : List (List Char)) (i : Nat)
    (cont : Option HeaderInfo) (nm : List Char)
    (h1 : matchDataHeaderFull (lineAt doc i) = none)
    (h2 : matchNameParenLeading (lineAt doc i) = some nm)
    (h3 : lowerChars nm ≠ cl "data")
    (h4 : extractParameters doc i = []) :
    fdbhStep doc i cont = none := by
  unfold fdbhStep
  dsimp only
  rw [h1, h2]
  simp [h3, h4, matchNameParenIndent, h2]

theorem fdbhStep_continues_data (doc : List (List Char)) (i : Nat)
    (cont : Option HeaderInfo)
    (h1 : matchDataParen (lineAt doc i) = true)
    (h2 : matchDataHeaderFull (lineAt doc i) = none) :
    fdbhStep doc i cont = cont := by
  obtain ⟨a, b, c, d, hnm, hlow⟩ := matchDataParen_elim _ h1
  unfold fdbhStep
  dsimp only
  rw [h2, hnm]
  simp [hlow]

/-- The first `//` outside quotes (the comment start that
`removeEndOfLineComment` uses), as an index. -/
def commentStartIdx : List Char → Nat → Option Char → Bool → Option Nat
  | [], _, _, _ => none
  | c :: rest, i, prev, inQ =>
    if c = '"' ∧ prev ≠ some '\\' then commentStartIdx rest (i + 1) (some c) (!inQ)
    else if c = '/' ∧ rest.headD ' ' = '/' ∧ inQ = false then some i
    else commentStartIdx rest (i + 1) (some c) inQ

/-- Modelled from the claim's words: the position immediately after the
last non-comment character of the raw line, the comment being the first
`//` outside quotes. -/
def posAfterLastNonComment (line : List Char) : Nat :=
  (trimEndJS (line.take ((commentStartIdx line 0 none false).getD line.length))).length

/-- The comment-stripped, optionally brace-unwrapped content that
`validateScriptLine` checks (mirrors its body). -/
def vslContent (line : List Char) : List Char :=
  let lwc := removeEndOfLineComment (trimJS line)
  if strStarts (cl "\x7b") lwc ∧ strEnds (cl "\x7d") lwc then trimJS lwc.tail.dropLast
  else lwc

/-- The position at which `validateScriptLine` places the missing
semicolon error: the raw line cut at its last literal `//` occurrence
(quote-blind; end of line when none), trailing whitespace trimmed. -/
def vslPos (line : List Char) : Nat :=
  (trimEndJS (jsSubstringTo line
    (if jsLastIndexOfStr line (cl "//") ≥ 0 then jsLastIndexOfStr line (cl "//")
     else (line.length : Int)))).length

theorem validateScriptLine_fires (line : List Char) (i : Nat)
    (h1 : trimJS line ≠ []) (h2 : trimJS line ≠ cl "\x7b") (h3 : trimJS line ≠ cl "\x7d")
    (h4 : (matchNameParenCol0 (vslContent line)).isSome = true)
    (h5 : endsWithChar (vslContent line) ';' = false) :
    validateScriptLine line i =
      [⟨⟨i, vslPos line⟩, ⟨i, vslPos line⟩, semicolonMsg, Severity.error⟩] := by
  unfold validateScriptLine
  dsimp only
  rw [if_neg (by simp [h1, h2, h3])]
  unfold vslContent at h4 h5
  dsimp only at h4 h5
  rw [if_pos ⟨h4, by simp [h5]⟩]
  rfl

theorem validateScriptLine_semicolon (line : List Char) (i : Nat)
    (h : endsWithChar (vslContent line) ';' = true) :
    validateScriptLine line i = [] := by
  unfold validateScriptLine
  dsimp only
  split
  · rfl
  · unfold vslContent at h
    dsimp only at h
    rw [if_neg]
    intro hc
    rw [h] at hc
    simp at hc

theorem mem_trimJS (a : Char) (l : List Char) (h : a ∈ trimJS l) : a ∈ l := by
  unfold trimJS at h
  rw [List.mem_reverse] at h
  have h2 := List.dropWhile_subset isSpaceJS h
  rw [List.mem_reverse] at h2
  exact List.dropWhile_subset isSpaceJS h2

theorem jsLastIndexOfChar_none (s : List Char) (c : Char) (h : c ∉ s) :
    jsLastIndexOfChar s c = -1 := by
  unfold jsLastIndexOfChar
  have hn : ∀ x ∈ s.reverse, ¬ x == c := by
    intro x hx hbe
    exact h (List.mem_reverse.1 ((eq_of_beq hbe) ▸ hx))
  rw [List.indexOf?_eq_none_iff.2 hn]

theorem detectScriptBlock_stype (l : List Char) (i j : Nat) :
    (detectScriptBlock l i).stype = (detectScriptBlock l j).stype := by
  unfold detectScriptBlock
  dsimp only
  cases matchScriptBrace (trimJS l)
  · cases matchScriptNoBrace (trimJS l) <;> rfl
  · rfl

theorem validateScriptLine_nofun (l : List Char) (i : Nat)
    (h : (matchNameParenCol0 (vslContent l)).isSome = false) :
    validateScriptLine l i = [] := by
  unfold validateScriptLine
  dsimp only
  split
  · rfl
  · unfold vslContent at h
    dsimp only at h
    rw [if_neg]
    intro hc
    rw [h] at hc
    simp at hc

theorem validateScriptLine_nil_all (l : List Char) (i : Nat)
    (h : validateScriptLine l 0 = []) : validateScriptLine l i = [] := by
  by_cases hg : trimJS l = [] ∨ trimJS l = cl "\x7b" ∨ trimJS l = cl "\x7d"
  · unfold validateScriptLine
    rw [if_pos hg]
  by_cases hf : (matchNameParenCol0 (vslContent l)).isSome = true ∧
      endsWithChar (vslContent l) ';' = false
  · exfalso
    rw [validateScriptLine_fires l 0 (fun he => hg (Or.inl he))
      (fun he => hg (Or.inr (Or.inl he))) (fun he => hg (Or.inr (Or.inr he))) hf.1 hf.2] at h
    simp at h
  · rcases Bool.eq_false_or_eq_true (matchNameParenCol0 (vslContent l)).isSome with hiso | hiso
    · have hend : endsWithChar (vslContent l) ';' = true := by
        rcases Bool.eq_false_or_eq_true (endsWithChar (vslContent l) ';') with he | he
        · exact he
        · exact absurd ⟨hiso, he⟩ hf
      exact validateScriptLine_semicolon l i hend
    · exact validateScriptLine_nofun l i hiso

theorem processLine_script_quiet (doc : List (List Char)) (i : Nat) (l : List Char)
    (st : VState) (hsc : st.insideScriptBlock = true)
    (hb : '\x7d' ∉ l)
    (hsb : (detectScriptBlock l 0).stype = SType.noneT)
    (hq1 : validateScriptLine l 0 = [])
    (hq2 : validateScriptLine
      (jsSubstringFrom (trimJS l) (jsIndexOfChar (trimJS l) '\x7b' + 1)) 0 = []) :
    processLine doc i l st = (st, []) := by
  have hbt : '\x7d' ∉ trimJS l := fun hx => hb (mem_trimJS _ _ hx)
  unfold processLine
  dsimp only
  split
  · rfl
  case isFalse hg =>
    rw [if_neg (by rw [detectScriptBlock_stype l i 0, hsb]; simp)]
    by_cases hbr : strStarts (cl "\x7b") (trimJS l) = true
    · rw [if_pos hbr]
      unfold openBraceStep
      rw [if_pos hsc]
      dsimp only
      rw [if_neg (by
        rw [jsLastIndexOfChar_none _ _ hbt]
        intro hcond
        exact hcond.2.1 rfl)]
      by_cases hlb : trimJS l = cl "\x7b"
      · rw [if_pos hlb]
      · rw [if_neg hlb]
        rw [validateScriptLine_nil_all _ i hq2]
        simp
    · rw [if_neg hbr]
      rw [if_neg (fun hc => hbt (by rw [hc]; decide))]
      rw [if_neg (by
        intro hcond
        rw [hsc] at hcond
        exact absurd hcond.2.2.1 (by decide))]
      rw [validateScriptLine_nil_all _ i hq1]

theorem runLines_script_quiet (doc : List (List Char)) (ls : List (List Char)) :
    ∀ (i : Nat) (st : VState), st.insideScriptBlock = true →
    (∀ l ∈ ls, '\x7d' ∉ l ∧ (detectScriptBlock l 0).stype = SType.noneT ∧
      validateScriptLine l 0 = [] ∧
      validateScriptLine (jsSubstringFrom (trimJS l) (jsIndexOfChar (trimJS l) '\x7b' + 1)) 0 = []) →
    runLines doc i ls st = (st, []) := by
  induction ls with
  | nil => intro i st _ _; rfl
  | cons l ls ih =>
    intro i st hsc H
    obtain ⟨h1, h2, h3, h4⟩ := H l (List.mem_cons_self l ls)
    simp only [runLines]
    rw [processLine_script_quiet doc i l st hsc h1 h2 h3 h4]
    dsimp only
    rw [ih (i + 1) st hsc (fun x hx => H x (List.mem_cons_of_mem l hx))]
    rfl

/-- Net brace count of one character: +1 for `{`, -1 for `}`. -/
def charDelta (c : Char) : Int :=
  if c = '\x7b' then 1 else if c = '\x7d' then -1 else 0

/-- Net brace count of a character list. -/
def braceDelta (cs : List Char) : Int := (cs.map charDelta).sum

/-- Modelled from the amended claim's words: some `}` in `cs` brings
the running count, started at `cnt`, to zero. -/
def hitsZero (cnt : Int) (cs : List Char) : Bool :=
  (List.range cs.length).any (fun k =>
    decide (cs.getD k ' ' = '\x7d') && decide (cnt + braceDelta (cs.take (k + 1)) = 0))

theorem braceDelta_cons (c : Char) (cs : List Char) :
    braceDelta (c :: cs) = charDelta c + braceDelta cs := by
  simp [braceDelta]

theorem fcbChars_rbrace (cnt : Int) (cs : List Char) :
    fcbChars cnt ('\x7d' :: cs) =
      if cnt - 1 = 0 then Sum.inl () else fcbChars (cnt - 1) cs := by
  simp [fcbChars]

theorem fcbChars_lbrace (cnt : Int) (cs : List Char) :
    fcbChars cnt ('\x7b' :: cs) = fcbChars (cnt + 1) cs := by
  simp [fcbChars]

theorem fcbChars_other (cnt : Int) (c : Char) (cs : List Char)
    (h1 : c ≠ '\x7b') (h2 : c ≠ '\x7d') :
    fcbChars cnt (c :: cs) = fcbChars cnt cs := by
  simp [fcbChars, h1, h2]

theorem hitsZero_cons (cnt : Int) (c : Char) (cs : List Char) :
    hitsZero cnt (c :: cs) =
      ((decide (c = '\x7d') && decide (cnt + charDelta c = 0)) ||
        hitsZero (cnt + charDelta c) cs) := by
  unfold hitsZero
  rw [List.length_cons, List.range_succ_eq_map, List.any_cons, List.any_map]
  congr 1
  · simp [braceDelta_cons, braceDelta]
  · congr 1
    funext k
    simp only [Function.comp]
    rw [List.getD_cons_succ]
    congr 1
    rw [List.take_succ_cons, braceDelta_cons]
    congr 1
    rw [Int.add_assoc]

theorem fcbChars_spec (cs : List Char) : ∀ cnt : Int,
    (hitsZero cnt cs = true → fcbChars cnt cs = Sum.inl ()) ∧
    (hitsZero cnt cs = false → fcbChars cnt cs = Sum.inr (cnt + braceDelta cs)) := by
  induction cs with
  | nil =>
    intro cnt
    constructor
    · intro h
      simp [hitsZero] at h
    · intro _
      simp [fcbChars, braceDelta]
  | cons c cs ih =>
    intro cnt
    rw [hitsZero_cons]
    by_cases hc : c = '\x7d'
    · subst hc
      have hd : charDelta '\x7d' = -1 := by decide
      rw [fcbChars_rbrace, hd]
      by_cases hz : cnt - 1 = 0
      · constructor
        · intro _
          rw [if_pos hz]
        · intro h
          exfalso
          have hcd : cnt + (-1 : Int) = 0 := by omega
          simp [hcd] at h
      · have hnz : decide (cnt + (-1 : Int) = 0) = false := by
          simp
          omega
        rw [hnz]
        simp only [Bool.and_false, Bool.false_or]
        rw [if_neg hz]
        have hsh : cnt + (-1 : Int) = cnt - 1 := by omega
        rw [hsh]
        constructor
        · intro h
          exact (ih (cnt - 1)).1 h
        · intro h
          rw [(ih (cnt - 1)).2 h, braceDelta_cons, hd]
          congr 1
          omega
    · have hone : (decide (c = '\x7d') && decide (cnt + charDelta c = 0)) = false := by
        simp [hc]
      rw [hone]
      simp only [Bool.false_or]
      by_cases hb : c = '\x7b'
      · subst hb
        have hd : charDelta '\x7b' = 1 := by decide
        rw [fcbChars_lbrace, hd]
        constructor
        · intro h
          exact (ih (cnt + 1)).1 h
        · intro h
          rw [(ih (cnt + 1)).2 h, braceDelta_cons, hd]
          congr 1
          omega
      · have hd : charDelta c = 0 := by
          simp [charDelta, hb, hc]
        rw [fcbChars_other cnt c cs hb hc, hd]
        have hsh : cnt + (0 : Int) = cnt := by omega
        rw [hsh]
        constructor
        · intro h
          exact (ih cnt).1 h
        · intro h
          rw [(ih cnt).2 h, braceDelta_cons, hd]
          congr 1
          omega

/-- Modelled from the amended claim's words: the first line at or after
the scan start on which a `}` brings the running count to zero. -/
def specCloseGo : Int → Nat → List (List Char) → Option Nat
  | _, _, [] => none
  | cnt, i, l :: ls =>
    if hitsZero cnt l then some i else specCloseGo (cnt + braceDelta l) (i + 1) ls

theorem fcbScan_eq_spec (ls : List (List Char)) : ∀ (cnt : Int) (i : Nat),
    fcbScan cnt i ls = specCloseGo cnt i ls := by
  induction ls with
  | nil => intro cnt i; rfl
  | cons l ls ih =>
    intro cnt i
    simp only [fcbScan, specCloseGo]
    rcases Bool.eq_false_or_eq_true (hitsZero cnt l) with h | h
    · rw [(fcbChars_spec l cnt).1 h, if_pos h]
    · rw [(fcbChars_spec l cnt).2 h, if_neg (by simp [h])]
      exact ih _ _

theorem fcbScan_bounds (ls : List (List Char)) : ∀ (cnt : Int) (i j : Nat),
    fcbScan cnt i ls = some j → i ≤ j ∧ j < i + ls.length := by
  induction ls with
  | nil => intro cnt i j h; simp [fcbScan] at h
  | cons l ls ih =>
    intro cnt i j h
    simp only [fcbScan] at h
    split at h
    · injection h with he
      subst he
      exact ⟨Nat.le_refl i, by rw [List.length_cons]; omega⟩
    · obtain ⟨h1, h2⟩ := ih _ (i + 1) j h
      exact ⟨by omega, by rw [List.length_cons]; omega⟩

/-- Modelled from the claim's literal words: scanning character by
character, the running count (incremented on `{`, decremented on `}`)
first RETURNS to zero — is zero again after having been nonzero. -/
def claimFirstZeroChars : Int → Bool → List Char → Sum Unit (Int × Bool)
  | cnt, seen, [] => Sum.inr (cnt, seen)
  | cnt, seen, c :: cs =>
    let cnt2 := cnt + charDelta c
    if seen = true ∧ cnt2 = 0 then Sum.inl ()
    else claimFirstZeroChars cnt2 (seen || decide (cnt2 ≠ 0)) cs

/-- Line loop of the literal reading of the claim. -/
def claimFirstZeroLineGo : Int → Bool → Nat → List (List Char) → Option Nat
  | _, _, _, [] => none
  | cnt, seen, i, l :: ls =>
    match claimFirstZeroChars cnt seen l with
    | Sum.inl _ => some i
    | Sum.inr (cnt2, seen2) => claimFirstZeroLineGo cnt2 seen2 (i + 1) ls

/-- The line on which the running count first returns to zero. -/
def claimFirstZeroLine (lines : List (List Char)) (s : Nat) : Option Nat :=
  claimFirstZeroLineGo 0 false s (lines.drop s)

/-- A field-count diagnostic message: "Too many fields..." or
"Missing fields...". -/
def isFieldCountMsg (m : List Char) : Bool :=
  strStarts (cl "Too many fields") m || strStarts (cl "Missing fields") m

theorem strStarts_head_ne (p c : Char) (ps cs : List Char) (h : (p == c) = false) :
    strStarts (p :: ps) (c :: cs) = false := by
  simp [strStarts]
  intro he
  rw [he] at h
  simp at h

theorem fieldMsg_unclosedScript (n : List Char) :
    isFieldCountMsg (unclosedScriptMsg n) = false := by
  unfold isFieldCountMsg unclosedScriptMsg
  rw [show cl "Too many fields" = 'T' :: cl "oo many fields" from rfl,
      show cl "Missing fields" = 'M' :: cl "issing fields" from rfl,
      show (cl "SCRIPT block \"" ++ n ++ cl "\" is missing a closing brace (\x7d)")
        = 'S' :: (cl "CRIPT block \"" ++ n ++ cl "\" is missing a closing brace (\x7d)") from rfl]
  rw [strStarts_head_ne _ _ _ _ (by decide), strStarts_head_ne _ _ _ _ (by decide)]
  rfl

theorem fieldMsg_unclosedData (n : List Char) :
    isFieldCountMsg (unclosedDataMsg n) = false := by
  unfold isFieldCountMsg unclosedDataMsg
  rw [show cl "Too many fields" = 'T' :: cl "oo many fields" from rfl,
      show cl "Missing fields" = 'M' :: cl "issing fields" from rfl,
      show (cl "DATA block \"" ++ n ++ cl "\" is missing a closing brace (\x7d)")
        = 'D' :: (cl "ATA block \"" ++ n ++ cl "\" is missing a closing brace (\x7d)") from rfl]
  rw [strStarts_head_ne _ _ _ _ (by decide), strStarts_head_ne _ _ _ _ (by decide)]
  rfl

theorem fieldMsg_flushUnclosed (doc : List (List Char)) (st : VState) (d : Diag)
    (hd : d ∈ flushUnclosed doc st) : isFieldCountMsg d.message = false := by
  unfold flushUnclosed at hd
  rw [List.mem_append] at hd
  rcases hd with hd | hd
  · rcases hs : st.unclosedScriptBlock with _ | ⟨k, n⟩ <;> rw [hs] at hd
    · simp at hd
    · simp at hd
      rw [hd]
      exact fieldMsg_unclosedScript n
  · rcases hs : st.unclosedDataBlock with _ | ⟨k, n⟩ <;> rw [hs] at hd
    · simp at hd
    · simp at hd
      rw [hd]
      exact fieldMsg_unclosedData n

theorem fieldMsg_validateScriptLine (l : List Char) (i : Nat) (d : Diag)
    (hd : d ∈ validateScriptLine l i) : isFieldCountMsg d.message = false := by
  unfold validateScriptLine at hd
  dsimp only at hd
  repeat' split at hd
  all_goals first
    | exact absurd hd (List.not_mem_nil d)
    | (simp at hd; rw [hd]; show isFieldCountMsg semicolonMsg = false; decide)

theorem bool_absurd {b : Bool} {C : Prop} (h1 : b = true) (h2 : b = false) : C := by
  rw [h2] at h1
  exact absurd h1 (by decide)

theorem bool_false_of_not_true {b : Bool} (h : ¬ b = true) : b = false := by
  rcases Bool.eq_false_or_eq_true b with hx | hx
  · exact absurd hx h
  · exact hx

theorem dataLineDiags_spec (doc : List (List Char)) (i : Nat) (info : HeaderInfo)
    (lt : List Char) (d : Diag) (hd : d ∈ dataLineDiags doc i info lt) :
    d.startPos.line = i ∧ isInsideSubdataBlock doc i = false := by
  unfold dataLineDiags at hd
  dsimp only at hd
  repeat' split at hd
  all_goals
    first
      | exact absurd hd (List.not_mem_nil d)
      | (have hni : isInsideSubdataBlock doc i = false := bool_false_of_not_true (by assumption)
         simp at hd
         first
           | (rcases hd with hd | hd <;> (rw [hd]; exact ⟨rfl, hni⟩))
           | (rw [hd]; exact ⟨rfl, hni⟩))

theorem fieldMsg_scriptHeaderStep (doc : List (List Char)) (i : Nat)
    (lineText : List Char) (scriptInfo : ScriptInfo) (st : VState) (d : Diag)
    (hd : d ∈ (scriptHeaderStep doc i lineText scriptInfo st).2) :
    isFieldCountMsg d.message = false := by
  unfold scriptHeaderStep at hd
  dsimp only at hd
  repeat' split at hd
  all_goals
    (rw [List.mem_append] at hd
     rcases hd with hd | hd
     · exact fieldMsg_flushUnclosed doc st d hd
     · first
         | exact absurd hd (List.not_mem_nil d)
         | exact fieldMsg_validateScriptLine _ i d hd)

theorem fieldMsg_openBraceStep (i : Nat) (lineText : List Char) (st : VState) (d : Diag)
    (hd : d ∈ (openBraceStep i lineText st).2) :
    isFieldCountMsg d.message = false := by
  unfold openBraceStep at hd
  try dsimp only at hd
  repeat' split at hd
  all_goals
    first
      | exact absurd hd (List.not_mem_nil d)
      | exact fieldMsg_validateScriptLine _ i d hd

theorem processLine_fieldMsg (doc : List (List Char)) (i : Nat) (l : List Char)
    (st : VState) (d : Diag) (hd : d ∈ (processLine doc i l st).2)
    (hf : isFieldCountMsg d.message = true) :
    d.startPos.line = i ∧ isInsideSubdataBlock doc i = false := by
  unfold processLine at hd
  dsimp only at hd
  repeat' split at hd
  all_goals
    first
      | exact absurd hd (List.not_mem_nil d)
      | exact bool_absurd hf (fieldMsg_scriptHeaderStep doc i _ _ st d hd)
      | exact bool_absurd hf (fieldMsg_openBraceStep i _ st d hd)
      | exact bool_absurd hf (fieldMsg_flushUnclosed doc st d hd)
      | exact bool_absurd hf (fieldMsg_validateScriptLine l i d hd)
      | exact dataLineDiags_spec doc i _ _ d hd

theorem runLines_fieldMsg (doc : List (List Char)) (ls : List (List Char)) :
    ∀ (i : Nat) (st : VState) (d : Diag), d ∈ (runLines doc i ls st).2 →
    isFieldCountMsg d.message = true →
    isInsideSubdataBlock doc d.startPos.line = false := by
  induction ls with
  | nil => intro i st d hd _; simp [runLines] at hd
  | cons l ls ih =>
    intro i st d hd hf
    simp only [runLines] at hd
    try dsimp only at hd
    rw [List.mem_append] at hd
    rcases hd with hd | hd
    · obtain ⟨h1, h2⟩ := processLine_fieldMsg doc i l st d hd hf
      rw [h1]
      exact h2
    · exact ih (i + 1) _ d hd hf

theorem scriptHeaderStep_flags (doc : List (List Char)) (i : Nat) (lineText : List Char)
    (scriptInfo : ScriptInfo) (st : VState) :
    ((scriptHeaderStep doc i lineText scriptInfo st).1.insideScriptBlock &&
      (scriptHeaderStep doc i lineText scriptInfo st).1.insideDataBlock) = false := by
  unfold scriptHeaderStep
  split <;> rfl

theorem openBraceStep_flags (i : Nat) (lineText : List Char) (st : VState)
    (h : (st.insideScriptBlock && st.insideDataBlock) = false) :
    ((openBraceStep i lineText st).1.insideScriptBlock &&
      (openBraceStep i lineText st).1.insideDataBlock) = false := by
  unfold openBraceStep
  dsimp only
  repeat' split
  all_goals first | exact h | rfl

theorem processLine_flags (doc : List (List Char)) (i : Nat) (l : List Char) (st : VState)
    (h : (st.insideScriptBlock && st.insideDataBlock) = false) :
    ((processLine doc i l st).1.insideScriptBlock &&
      (processLine doc i l st).1.insideDataBlock) = false := by
  unfold processLine
  dsimp only
  repeat' split
  all_goals first
    | exact h
    | rfl
    | apply scriptHeaderStep_flags
    | exact openBraceStep_flags _ _ _ h

theorem runLines_flags (doc : List (List Char)) (ls : List (List Char)) :
    ∀ (i : Nat) (st : VState), (st.insideScriptBlock && st.insideDataBlock) = false →
    ((runLines doc i ls st).1.insideScriptBlock &&
      (runLines doc i ls st).1.insideDataBlock) = false := by
  induction ls with
  | nil => intro i st h; simpa [runLines] using h
  | cons l ls ih =>
    intro i st h
    simp only [runLines]
    exact ih (i + 1) _ (processLine_flags doc i l st h)

theorem head_dropWhile (p : Char → Bool) (l : List Char) (c : Char) (t : List Char)
    (h : l.dropWhile p = c :: t) : p c = false := by
  induction l with
  | nil => simp [List.dropWhile] at h
  | cons a l ih =>
    rw [List.dropWhile] at h
    split at h
    · exact ih h
    · rename_i heq
      rw [List.cons.injEq] at h
      rw [← h.1]
      exact heq

theorem dropWhile_idem (p : Char → Bool) (l : List Char) :
    (l.dropWhile p).dropWhile p = l.dropWhile p := by
  rcases hd : l.dropWhile p with _ | ⟨c, t⟩
  · rfl
  · rw [List.dropWhile_cons_of_neg]
    rw [head_dropWhile p l c t hd]
    simp

theorem trim_fix_parts (L : List Char) (hT : trimJS L = L) :
    L.dropWhile isSpaceJS = L ∧ L.reverse.dropWhile isSpaceJS = L.reverse := by
  have h1 : L.dropWhile isSpaceJS = L := by
    apply (List.dropWhile_suffix isSpaceJS).eq_of_length
    have hle1 : ((L.dropWhile isSpaceJS).reverse.dropWhile isSpaceJS).length ≤
        (L.dropWhile isSpaceJS).length := by
      have := (List.dropWhile_suffix (l := (L.dropWhile isSpaceJS).reverse) isSpaceJS).sublist.length_le
      simpa using this
    have hle2 : (L.dropWhile isSpaceJS).length ≤ L.length :=
      (List.dropWhile_suffix isSpaceJS).sublist.length_le
    have hlen : (trimJS L).length = L.length := by rw [hT]
    unfold trimJS at hlen
    rw [List.length_reverse] at hlen
    omega
  refine ⟨h1, ?_⟩
  have hT2 := hT
  unfold trimJS at hT2
  rw [h1] at hT2
  have := congrArg List.reverse hT2
  rw [List.reverse_reverse] at this
  exact this

theorem trim_head_not_space (L : List Char) (hT : trimJS L = L) (c : Char) (t : List Char)
    (h : L = c :: t) : isSpaceJS c = false := by
  have h1 := (trim_fix_parts L hT).1
  rw [h] at h1
  exact head_dropWhile isSpaceJS (c :: t) c t (by rw [h1])

theorem trim_last_not_space (L : List Char) (hT : trimJS L = L) (c : Char) (t : List Char)
    (h : L.reverse = c :: t) : isSpaceJS c = false := by
  have h1 := (trim_fix_parts L hT).2
  rw [h] at h1
  exact head_dropWhile isSpaceJS (c :: t) c t (by rw [h1])

theorem trim_noop (f : List Char)
    (hh : ∀ c t, f = c :: t → isSpaceJS c = false)
    (hl : ∀ c t, f.reverse = c :: t → isSpaceJS c = false) : trimJS f = f := by
  rcases f with _ | ⟨c, t⟩
  · rfl
  · unfold trimJS
    rw [List.dropWhile_cons_of_neg (by rw [hh c t rfl]; simp)]
    rcases hr : (c :: t).reverse with _ | ⟨c2, t2⟩
    · simp at hr
    · rw [List.dropWhile_cons_of_neg (by rw [hl c2 t2 hr]; simp)]
      rw [← hr]
      rw [List.reverse_reverse]

theorem trim_idem (l : List Char) : trimJS (trimJS l) = trimJS l := by
  apply trim_noop
  · intro c t h
    have hpre : (trimJS l).reverse = (l.dropWhile isSpaceJS).reverse.dropWhile isSpaceJS := by
      unfold trimJS
      rw [List.reverse_reverse]
    obtain ⟨C, hC⟩ := (List.dropWhile_suffix (l := (l.dropWhile isSpaceJS).reverse) isSpaceJS)
    have hA : l.dropWhile isSpaceJS = (trimJS l) ++ C.reverse := by
      have := congrArg List.reverse hC
      rw [List.reverse_append, List.reverse_reverse] at this
      rw [← this, ← hpre]
      rw [List.reverse_reverse]
    rcases hAc : l.dropWhile isSpaceJS with _ | ⟨a, t3⟩
    · rw [h] at hA
      rw [hAc] at hA
      simp at hA
    · have hca : c = a := by
        rw [hAc, h] at hA
        simp at hA
        exact hA.1.symm
    
      rw [hca]
      exact head_dropWhile isSpaceJS l a t3 hAc
  · intro c t h
    have hpre : (trimJS l).reverse = (l.dropWhile isSpaceJS).reverse.dropWhile isSpaceJS := by
      unfold trimJS
      rw [List.reverse_reverse]
    rw [hpre] at h
    exact head_dropWhile isSpaceJS _ c t h

theorem reolGo_trim (orig : List Char) (hT : trimJS orig = orig) :
    ∀ (rest : List Char) (prev : Option Char) (inQ : Bool) (acc : List Char),
    trimJS (reolGo orig rest prev inQ acc) = reolGo orig rest prev inQ acc := by
  intro rest
  induction rest with
  | nil => intro prev inQ acc; exact hT
  | cons c cs ih =>
    intro prev inQ acc
    simp only [reolGo]
    split
    · exact ih _ _ _
    · split
      · exact trim_idem _
      · exact ih _ _ _

theorem reol_trim (s : List Char) :
    trimJS (removeEndOfLineComment (trimJS s)) = removeEndOfLineComment (trimJS s) :=
  reolGo_trim (trimJS s) (trim_idem s) (trimJS s) none false []

theorem pdl_agree_go (rest : List Char) : ∀ (i : Nat) (prev : Option Char) (inQ : Bool)
    (ocur : Option (Nat × List Char)),
    pdlGo rest prev inQ (listOfCur ocur) = (pdlIdxGo rest i prev inQ ocur).map Prod.snd := by
  induction rest with
  | nil =>
    intro i prev inQ ocur
    rcases ocur with _ | ⟨s, rev⟩
    · simp [pdlGo, pdlIdxGo, listOfCur, trimJS]
    · simp only [pdlGo, pdlIdxGo, listOfCur]
      split <;> simp
  | cons c cs ih =>
    intro i prev inQ ocur
    simp only [pdlGo, pdlIdxGo]
    split
    · rcases ocur with _ | ⟨s, rev⟩
      · exact ih (i + 1) (some c) (!inQ) (some (i, [c]))
      · exact ih (i + 1) (some c) (!inQ) (some (s, c :: rev))
    · split
      · rw [List.map_append]
        congr 1
        · rcases ocur with _ | ⟨s, rev⟩
          · simp [listOfCur, trimJS]
          · simp only [listOfCur]
            split <;> simp
        · exact ih (i + 1) (some c) inQ none
      · rcases ocur with _ | ⟨s, rev⟩
        · exact ih (i + 1) (some c) inQ (some (i, [c]))
        · exact ih (i + 1) (some c) inQ (some (s, c :: rev))

theorem pdl_agree (L : List Char) :
    parseDataLine L = (parseDataLineIdx L).map Prod.snd :=
  pdl_agree_go L 0 none false none

theorem getD_of_drop (L : List Char) (i : Nat) (c : Char) (t : List Char)
    (h : L.drop i = c :: t) :
    L.getD i '?' = c ∧ L.drop (i + 1) = t ∧ i < L.length := by
  have hi : i < L.length := by
    by_contra hni
    rw [List.drop_eq_nil_of_le (by omega)] at h
    exact absurd h (by simp)
  rw [List.drop_eq_getElem_cons hi, List.cons.injEq] at h
  refine ⟨?_, h.2, hi⟩
  rw [List.getD_eq_getElem?_getD, List.getElem?_eq_getElem hi]
  exact congrArg (fun o => Option.getD (some o) '?') h.1

theorem headD_append_left (xs ys : List Char) (d : Char) (h : xs ≠ []) :
    (xs ++ ys).headD d = xs.headD d := by
  rcases xs with _ | ⟨a, t⟩
  · exact absurd rfl h
  · rfl

theorem pdlIdxGo_located (L : List Char)
    (hWs : ∀ c ∈ L, isSpaceJS c = true → c = ' ') (hT : trimJS L = L) :
    ∀ (rest : List Char) (i p : Nat) (prev : Option Char) (inQ : Bool)
      (ocur : Option (Nat × List Char)),
    L.drop i = rest → CurInv L i p inQ ocur →
    Located L p (pdlIdxGo rest i prev inQ ocur) := by
  intro rest
  induction rest with
  | nil =>
    intro i p prev inQ ocur hdrop hinv
    rcases ocur with _ | ⟨s, rev⟩
    · exact Located.nil p
    · obtain ⟨hps, hgap, hlen, hsub, hne, hhead, hlast⟩ := hinv
      rw [hdrop, List.append_nil] at hsub
      -- the final run reaches the end of L; its last char is L's last
      have hrev : L.reverse = rev ++ (L.take s).reverse := by
        conv_lhs => rw [← List.take_append_drop s L]
        rw [List.reverse_append, hsub, List.reverse_reverse]
      have hlastc : ∀ c t, rev = c :: t → isSpaceJS c = false := by
        intro c t hc
        apply trim_last_not_space L hT c (t ++ (L.take s).reverse)
        rw [hrev, hc]
        simp
      have htrim : trimJS rev.reverse = rev.reverse := by
        apply trim_noop
        · intro c t hc
          have hcm : c ∈ L := by
            have : c ∈ L.drop s := by rw [hsub, hc]; simp
            exact List.drop_subset s L this
          have hcsp : c ≠ ' ' := by
            rw [hc] at hhead
            simpa using hhead
          rcases Bool.eq_false_or_eq_true (isSpaceJS c) with hx | hx
          · exact absurd (hWs c hcm hx) hcsp
          · exact hx
        · intro c t hc
          rw [List.reverse_reverse] at hc
          exact hlastc c t hc
      simp only [pdlIdxGo]
      rw [if_pos (by rw [htrim]; simpa using hne)]
      rw [htrim]
      refine Located.cons p s rev.reverse [] hps hgap (by simpa using hne) hhead ?_ (Located.nil _)
      rw [List.length_reverse, hlen, hdrop, List.append_nil]
      exact hsub
  | cons c cs ih =>
    intro i p prev inQ ocur hdrop hinv
    obtain ⟨hgd, hdrop1, hilen⟩ := getD_of_drop L i c cs hdrop
    have hcm : c ∈ L := by
      have : c ∈ L.drop i := by rw [hdrop]; simp
      exact List.drop_subset i L this
    simp only [pdlIdxGo]
    split
    case isTrue hq =>
      -- append branch for a quote character
      rcases ocur with _ | ⟨s, rev⟩
      · obtain ⟨hinQ, hpi, hgap⟩ := hinv
        apply ih (i + 1) p (some c) (!inQ) (some (i, [c])) hdrop1
        refine ⟨hpi, hgap, by simp, ?_, by simp, ?_, ?_⟩
        · rw [hdrop, hdrop1]
          rfl
        · rw [hq.1]
          simp
        · intro _
          rw [hq.1]
          simp
      · obtain ⟨hps, hgap, hlen, hsub, hne, hhead, hlast⟩ := hinv
        apply ih (i + 1) p (some c) (!inQ) (some (s, c :: rev)) hdrop1
        refine ⟨hps, hgap, by simp; omega, ?_, by simp, ?_, ?_⟩
        · rw [List.reverse_cons, hsub, hdrop, hdrop1, List.append_assoc]
          rfl
        · rw [List.reverse_cons, headD_append_left _ _ _ (by simpa using hne)]
          exact hhead
        · intro _
          rw [hq.1]
          simp
    case isFalse hq =>
      split
      case isTrue hsp =>
        -- flush branch: c is a space outside quotes
        rcases ocur with _ | ⟨s, rev⟩
        · obtain ⟨hinQ, hpi, hgap⟩ := hinv
          simp only [List.nil_append]
          apply ih (i + 1) p (some c) inQ none hdrop1
          refine ⟨hinQ, by omega, ?_⟩
          intro q hq1 hq2
          rcases Nat.lt_or_ge q i with hqi | hqi
          · exact hgap q hq1 hqi
          · have : q = i := by omega
            rw [this, hgd, hsp.1]
        · obtain ⟨hps, hgap, hlen, hsub, hne, hhead, hlast⟩ := hinv
          have hlastc : rev.headD ' ' ≠ ' ' := hlast hsp.2
          have htrim : trimJS rev.reverse = rev.reverse := by
            apply trim_noop
            · intro c2 t hc
              have hcm2 : c2 ∈ L := by
                have : c2 ∈ L.drop s := by rw [hsub, hc]; simp
                exact List.drop_subset s L this
              have hcsp : c2 ≠ ' ' := by
                rw [hc] at hhead
                simpa using hhead
              rcases Bool.eq_false_or_eq_true (isSpaceJS c2) with hx | hx
              · exact absurd (hWs c2 hcm2 hx) hcsp
              · exact hx
            · intro c2 t hc
              rw [List.reverse_reverse] at hc
              have hcm2 : c2 ∈ L := by
                have : c2 ∈ L.drop s := by
                  rw [hsub]
                  rw [hc]
                  simp
                exact List.drop_subset s L this
              have hcsp : c2 ≠ ' ' := by
                rw [hc] at hlastc
                simpa using hlastc
              rcases Bool.eq_false_or_eq_true (isSpaceJS c2) with hx | hx
              · exact absurd (hWs c2 hcm2 hx) hcsp
              · exact hx
          dsimp only
          rw [if_pos (by rw [htrim]; simpa using hne)]
          rw [htrim]
          have hsF : s + rev.reverse.length = i := by
            rw [List.length_reverse]
            exact hlen
          refine Located.cons p s rev.reverse _ hps hgap (by simpa using hne) hhead ?_ ?_
          · rw [hsF]
            exact hsub
          · rw [hsF]
            apply ih (i + 1) i (some c) inQ none hdrop1
            refine ⟨hsp.2, by omega, ?_⟩
            intro q hq1 hq2
            have : q = i := by omega
            rw [this, hgd, hsp.1]
      case isFalse hnsp =>
        -- plain append branch
        rcases ocur with _ | ⟨s, rev⟩
        · obtain ⟨hinQ, hpi, hgap⟩ := hinv
          have hcns : c ≠ ' ' := by
            intro hc
            exact hnsp ⟨hc, hinQ⟩
          apply ih (i + 1) p (some c) inQ (some (i, [c])) hdrop1
          refine ⟨hpi, hgap, by simp, ?_, by simp, by simpa using hcns, ?_⟩
          · rw [hdrop, hdrop1]
            rfl
          · intro _
            simpa using hcns
        · obtain ⟨hps, hgap, hlen, hsub, hne, hhead, hlast⟩ := hinv
          apply ih (i + 1) p (some c) inQ (some (s, c :: rev)) hdrop1
          refine ⟨hps, hgap, by simp; omega, ?_, by simp, ?_, ?_⟩
          · rw [List.reverse_cons, hsub, hdrop, hdrop1, List.append_assoc]
            rfl
          · rw [List.reverse_cons, headD_append_left _ _ _ (by simpa using hne)]
            exact hhead
          · intro hiq
            have hcns : c ≠ ' ' := by
              intro hc
              exact hnsp ⟨hc, hiq⟩
            simpa using hcns

theorem located_parseDataLineIdx (L : List Char)
    (hWs : ∀ c ∈ L, isSpaceJS c = true → c = ' ') (hT : trimJS L = L) :
    Located L 0 (parseDataLineIdx L) := by
  apply pdlIdxGo_located L hWs hT L 0 0 none false none rfl
  exact ⟨rfl, Nat.le_refl 0, fun q hq1 hq2 => absurd hq2 (by omega)⟩

theorem strStarts_self_append (f t : List Char) : strStarts f (f ++ t) = true := by
  induction f with
  | nil => rfl
  | cons c cs ih => simp [strStarts, ih]

theorem indexOfFromAux_found (s pat : List Char) (target : Nat) :
    ∀ (fuel q : Nat), q ≤ target → target < q + fuel →
    (∀ r, q ≤ r → r < target → strStarts pat (s.drop r) = false) →
    strStarts pat (s.drop target) = true →
    indexOfFromAux s pat fuel q = some target := by
  intro fuel
  induction fuel with
  | zero => intro q h1 h2 _ _; omega
  | succ n ih =>
    intro q h1 h2 hmiss hhit
    simp only [indexOfFromAux]
    rcases Nat.eq_or_lt_of_le h1 with heq | hlt
    · rw [heq, hhit]
      simp
    · rw [hmiss q (Nat.le_refl q) hlt]
      simp only [Bool.false_eq_true, if_false]
      exact ih (q + 1) hlt (by omega) (fun r hr1 hr2 => hmiss r (by omega) hr2) hhit

theorem jsIndexOfStrFrom_found (L f : List Char) (p s : Nat)
    (hps : p ≤ s) (hsl : s ≤ L.length)
    (hmiss : ∀ r, p ≤ r → r < s → strStarts f (L.drop r) = false)
    (hhit : strStarts f (L.drop s) = true) :
    jsIndexOfStrFrom L f (p : Int) = (s : Int) := by
  unfold jsIndexOfStrFrom indexOfFrom
  rw [Int.toNat_natCast]
  rw [if_pos (by omega)]
  rw [indexOfFromAux_found L f s (L.length + 1 - p) p hps (by omega) hmiss hhit]

theorem located_append (L : List Char) :
    ∀ (A B : List (Nat × List Char)) (p : Nat), Located L p (A ++ B) →
    Located L p A ∧ Located L (locEnd p A) B := by
  intro A
  induction A with
  | nil => intro B p h; exact ⟨Located.nil p, h⟩
  | cons sf A' ih =>
    intro B p h
    rcases sf with ⟨s, f⟩
    cases h with
    | cons _ _ _ _ hps hgap hne hhead hsub htail =>
      obtain ⟨hA, hB⟩ := ih B (s + f.length) htail
      exact ⟨Located.cons p s f A' hps hgap hne hhead hsub hA, hB⟩

theorem located_nonspace_head (L : List Char) (s : Nat) (f : List Char)
    (hne : f ≠ []) (hhead : f.headD ' ' ≠ ' ')
    (hsub : L.drop s = f ++ L.drop (s + f.length)) :
    s < L.length ∧ L.getD s '?' ≠ ' ' := by
  rcases f with _ | ⟨c, t⟩
  · exact absurd rfl hne
  · have hdrop : L.drop s = c :: (t ++ L.drop (s + (c :: t).length)) := hsub
    obtain ⟨hgd, _, hlen⟩ := getD_of_drop L s c _ hdrop
    refine ⟨hlen, ?_⟩
    rw [hgd]
    simpa using hhead

theorem fepLoop_located (L : List Char) :
    ∀ (F : List (Nat × List Char)) (p : Nat), p ≤ L.length → Located L p F →
    fepLoop L (F.map Prod.snd) (p : Int) = (locEnd p F : Int) := by
  intro F
  induction F with
  | nil => intro p _ _; rfl
  | cons sf F' ih =>
    intro p hpl h
    rcases sf with ⟨s, f⟩
    cases h with
    | cons _ _ _ _ hps hgap hne hhead hsub htail =>
      obtain ⟨hsl, _⟩ := located_nonspace_head L s f hne hhead hsub
      have hfound : jsIndexOfStrFrom L f (p : Int) = (s : Int) := by
        apply jsIndexOfStrFrom_found L f p s hps (by omega)
        · intro r hr1 hr2
          have hrl : r < L.length := by omega
          have hdropr : L.drop r = L.getD r '?' :: L.drop (r + 1) := by
            rw [List.getD_eq_getElem?_getD, List.getElem?_eq_getElem hrl]
            exact List.drop_eq_getElem_cons hrl
          rw [hdropr, hgap r hr1 hr2]
          rcases f with _ | ⟨c, t⟩
          · exact absurd rfl hne
          · have hc : c ≠ ' ' := by simpa using hhead
            simp [strStarts]
            intro hce
            exact absurd hce hc
        · rw [hsub]
          exact strStarts_self_append f _
      simp only [List.map_cons, fepLoop, locEnd, hfound]
      have hend : s + f.length ≤ L.length := by
        by_contra hgt
        have : L.drop s = f ++ [] := by
          rw [hsub, List.drop_eq_nil_of_le (by omega)]
        have hlen := congrArg List.length this
        simp [List.length_drop] at hlen
        omega
      have hcast : (s : Int) + (f.length : Int) = ((s + f.length : Nat) : Int) := by
        push_cast
        ring
      rw [hcast]
      exact ih (s + f.length) hend htail

theorem skipSpacesInt_to (L : List Char) (s : Nat)
    (hstop : L.length ≤ s ∨ L.getD s '?' ≠ ' ') :
    ∀ (fuel e : Nat), e ≤ s → s ≤ e + fuel →
    (∀ q, e ≤ q → q < s → L.getD q '?' = ' ') →
    skipSpacesInt L fuel (e : Int) = (s : Int) := by
  intro fuel
  induction fuel with
  | zero =>
    intro e h1 h2 _
    have : e = s := by omega
    rw [this]
    rfl
  | succ n ih =>
    intro e h1 h2 hgap
    simp only [skipSpacesInt]
    rcases Nat.eq_or_lt_of_le h1 with heq | hlt
    · rw [if_neg]
      · rw [heq]
      · intro ⟨hc1, _, hc3⟩
        rcases hstop with hst | hst
        · rw [heq] at hc1
          omega
        · rw [Int.toNat_natCast, heq] at hc3
          have hsl : s < L.length := by
            rw [heq] at hc1
            omega
          rw [List.getD_eq_getElem?_getD, List.getElem?_eq_getElem hsl] at hc3 hst
          exact hst hc3
    · rw [if_pos]
      · have : (e : Int) + 1 = ((e + 1 : Nat) : Int) := by push_cast; ring
        rw [this]
        exact ih (e + 1) hlt (by omega) (fun q hq1 hq2 => hgap q (by omega) hq2)
      · have hel : e < L.length := by
          by_contra hge
          have hsp := hgap e (Nat.le_refl e) hlt
          rw [List.getD_eq_default _ _ (show L.length ≤ e by omega)] at hsp
          exact absurd hsp (by decide)
        refine ⟨by omega, by omega, ?_⟩
        rw [Int.toNat_natCast]
        have := hgap e (Nat.le_refl e) hlt
        rw [List.getD_eq_getElem?_getD, List.getElem?_eq_getElem hel] at this ⊢
        exact this

theorem fep_correct (L : List Char)
    (hWs : ∀ c ∈ L, isSpaceJS c = true → c = ' ') (hT : trimJS L = L)
    (n : Nat) (hn : n < (parseDataLine L).length) :
    findExtraFieldPosition L n = (((parseDataLineIdx L).getD n (0, [])).1 : Int) := by
  have hagree := pdl_agree L
  have hnF : n < (parseDataLineIdx L).length := by
    rw [hagree, List.length_map] at hn
    exact hn
  have hloc := located_parseDataLineIdx L hWs hT
  have hsplit : parseDataLineIdx L =
      (parseDataLineIdx L).take n ++ (parseDataLineIdx L).drop n :=
    (List.take_append_drop n _).symm
  rw [hsplit] at hloc
  obtain ⟨hlocA, hlocB⟩ := located_append L _ _ 0 hloc
  have hdropn : (parseDataLineIdx L).drop n =
      (parseDataLineIdx L).get ⟨n, hnF⟩ :: (parseDataLineIdx L).drop (n + 1) := by
    rw [List.drop_eq_getElem_cons hnF]
    rfl
  rcases hsf : (parseDataLineIdx L).get ⟨n, hnF⟩ with ⟨s, f⟩
  rw [hdropn, hsf] at hlocB
  cases hlocB with
  | cons _ _ _ _ hps hgap hne hhead hsub htail =>
    obtain ⟨hsl, hns⟩ := located_nonspace_head L s f hne hhead hsub
    unfold findExtraFieldPosition
    rw [if_neg (by omega)]
    have htake : (parseDataLine L).take n = ((parseDataLineIdx L).take n).map Prod.snd := by
      rw [hagree, List.map_take]
    rw [htake]
    have hcp : fepLoop L (((parseDataLineIdx L).take n).map Prod.snd) (0 : Int) =
        (locEnd 0 ((parseDataLineIdx L).take n) : Int) := by
      have h0 : ((0 : Nat) : Int) = (0 : Int) := rfl
      rw [← h0]
      exact fepLoop_located L _ 0 (Nat.zero_le _) hlocA
    rw [hcp]
    have hcp2 : skipSpacesInt L (L.length + 1)
        ((locEnd 0 ((parseDataLineIdx L).take n) : Nat) : Int) = (s : Int) := by
      apply skipSpacesInt_to L s (Or.inr hns) (L.length + 1) _ hps (by omega) hgap
    dsimp only
    rw [hcp2]
    rw [if_pos (by exact_mod_cast hsl)]
    rw [List.getD_eq_getElem?_getD, List.getElem?_eq_getElem hnF]
    simp only [Option.getD_some]
    have : (parseDataLineIdx L)[n] = (s, f) := hsf
    rw [this]

theorem trim_ne_nil_of_head (c : Char) (t : List Char) (hc : isSpaceJS c = false) :
    trimJS (c :: t) ≠ [] := by
  unfold trimJS
  rw [List.dropWhile_cons_of_neg (by simp [hc])]
  intro h0
  have h1 : (c :: t).reverse.dropWhile isSpaceJS = [] := by
    simpa using congrArg List.reverse h0
  have hall := List.dropWhile_eq_nil_iff.mp h1
  have := hall c (by simp)
  rw [hc] at this
  exact absurd this (by simp)

theorem trim_ne_nil_of_last (l : List Char) (c : Char) (t : List Char)
    (h : l.reverse = c :: t) (hc : isSpaceJS c = false) : trimJS l ≠ [] := by
  intro h0
  unfold trimJS at h0
  have h1 : (l.dropWhile isSpaceJS).reverse.dropWhile isSpaceJS = [] := by
    simpa using congrArg List.reverse h0
  have hall := List.dropWhile_eq_nil_iff.mp h1
  by_cases hd : l.dropWhile isSpaceJS = []
  · have hall2 := List.dropWhile_eq_nil_iff.mp hd
    have hcm : c ∈ l := by
      have : c ∈ l.reverse := by rw [h]; simp
      simpa using this
    have := hall2 c hcm
    rw [hc] at this
    exact absurd this (by simp)
  · obtain ⟨pre, hpre⟩ := List.dropWhile_suffix (p := isSpaceJS) (l := l)
    have hrev : l.reverse = (l.dropWhile isSpaceJS).reverse ++ pre.reverse := by
      conv_lhs => rw [← hpre]
      rw [List.reverse_append]
    rcases hrd : (l.dropWhile isSpaceJS).reverse with _ | ⟨c2, t2⟩
    · exact hd (by simpa using congrArg List.reverse hrd)
    · rw [hrd, h] at hrev
      have hcc : c = c2 := by
        injection hrev
      have := hall c2 (by rw [hrd]; simp)
      rw [← hcc, hc] at this
      exact absurd this (by simp)

theorem pdlGo_output_ne_nil :
    ∀ (rest : List Char) (prev : Option Char) (inQ : Bool) (cur : List Char),
    isSpaceJS ((rest.reverse ++ cur).headD ' ') = false →
    pdlGo rest prev inQ cur ≠ [] := by
  intro rest
  induction rest with
  | nil =>
    intro prev inQ cur hS
    simp only [List.reverse_nil, List.nil_append] at hS
    rcases cur with _ | ⟨c, t⟩
    · exact absurd hS (by simp [isSpaceJS])
    · have hcond : trimJS (c :: t).reverse ≠ [] := by
        apply trim_ne_nil_of_last (c :: t).reverse c t (by simp)
        simpa using hS
      simp only [pdlGo]
      rw [if_pos hcond]
      simp
  | cons c rest' ih =>
    intro prev inQ cur hS
    have hSassoc : ((c :: rest').reverse ++ cur) = (rest'.reverse ++ (c :: cur)) := by simp
    simp only [pdlGo]
    split
    case isTrue hq =>
      apply ih (some c) (!inQ) (c :: cur)
      rw [← hSassoc]
      exact hS
    case isFalse hq =>
      split
      case isTrue hsp =>
        rcases rest' with _ | ⟨d, rest''⟩
        · exfalso
          rw [hsp.1] at hS
          exact absurd hS (by simp [isSpaceJS])
        · intro h0
          rcases List.append_eq_nil.mp h0 with ⟨_, h2⟩
          apply ih (some c) inQ []
          · rw [List.append_nil]
            rw [show ((c :: d :: rest'').reverse ++ cur) =
                ((d :: rest'').reverse ++ (c :: cur)) from by simp] at hS
            rw [headD_append_left _ _ _ (by simp)] at hS
            exact hS
          · exact h2
      case isFalse hnsp =>
        apply ih (some c) inQ (c :: cur)
        rw [← hSassoc]
        exact hS

theorem parseDataLine_ne_nil (L : List Char) (hT : trimJS L = L) (hne : L ≠ []) :
    parseDataLine L ≠ [] := by
  apply pdlGo_output_ne_nil L none false []
  rw [List.append_nil]
  rcases hrev : L.reverse with _ | ⟨c, t⟩
  · exact absurd (by simpa using congrArg List.reverse hrev) hne
  · rw [List.headD_cons]
    exact trim_last_not_space L hT c t hrev

theorem reolGo_ne_nil (s : List Char) (hT : trimJS s = s)
    (hnc : strStarts (cl "//") s = false) (hne : s ≠ []) :
    ∀ (rest acc : List Char) (prev : Option Char) (inQ : Bool),
    s = acc.reverse ++ rest →
    reolGo s rest prev inQ acc ≠ [] := by
  intro rest
  induction rest with
  | nil =>
    intro acc prev inQ _
    simpa [reolGo] using hne
  | cons c rest' ih =>
    intro acc prev inQ hpre
    simp only [reolGo]
    split
    case isTrue hq =>
      exact ih (c :: acc) (some c) (!inQ) (by rw [hpre]; simp)
    case isFalse hq =>
      split
      case isTrue hcm =>
        rcases acc with _ | ⟨a, acc'⟩
        · exfalso
          obtain ⟨hc, hh, _⟩ := hcm
          rcases rest' with _ | ⟨d, rest''⟩
          · simp at hh
          · rw [List.headD_cons] at hh
            rw [List.reverse_nil, List.nil_append] at hpre
            rw [hpre, hc, hh] at hnc
            simp [cl, strStarts] at hnc
        · have hgoal : trimJS (a :: acc').reverse ≠ [] := by
            rcases har : (a :: acc').reverse with _ | ⟨b, tb⟩
            · exact absurd har (by simp)
            · apply trim_ne_nil_of_head b tb
              rw [har] at hpre
              exact trim_head_not_space s hT b (tb ++ c :: rest') hpre
          exact hgoal
      case isFalse hnsp =>
        exact ih (c :: acc) (some c) inQ (by rw [hpre]; simp)

theorem removeEndOfLineComment_ne_nil (s : List Char) (hT : trimJS s = s)
    (hnc : strStarts (cl "//") s = false) (hne : s ≠ []) :
    removeEndOfLineComment s ≠ [] :=
  reolGo_ne_nil s hT hnc hne s [] none false (by simp)

theorem processLine_dataBranch (doc : List (List Char)) (i : Nat) (line : List Char)
    (st : VState) (info : HeaderInfo)
    (hsb : st.insideScriptBlock = false) (hdb : st.insideDataBlock = true)
    (hinfo : st.currentDataBlockInfo = some info)
    (hnc : strStarts (cl "//") (trimJS line) = false)
    (hnb : trimJS line ≠ [])
    (hscript : (detectScriptBlock line i).stype = SType.noneT)
    (hbrace : strStarts (cl "\x7b") (trimJS line) = false)
    (hclose : trimJS line ≠ cl "\x7d") :
    processLine doc i line st = (st, dataLineDiags doc i info (trimJS line)) := by
  unfold processLine
  dsimp only
  rw [if_neg (by simp [hnc, hnb])]
  rw [if_neg (by simp [hscript])]
  rw [if_neg (by simp [hbrace])]
  rw [if_neg hclose]
  rw [if_neg (by intro h; rw [hdb] at h; exact absurd h.2.2.2 (by decide))]
  rw [if_neg (by simp [hsb])]
  rw [hdb, hinfo]

theorem dataLineDiags_eval (doc : List (List Char)) (i : Nat) (info : HeaderInfo)
    (lt : List Char)
    (hsub : isInsideSubdataBlock doc i = false)
    (topen : matchSubdataOpen lt = false)
    (tclose : matchSubdataClose lt = false)
    (hT : trimJS (removeEndOfLineComment lt) = removeEndOfLineComment lt)
    (hne : removeEndOfLineComment lt ≠ [])
    (hWs : ∀ c ∈ removeEndOfLineComment lt, isSpaceJS c = true → c = ' ') :
    dataLineDiags doc i info lt =
      (if info.parameters.length < (parseDataLine (removeEndOfLineComment lt)).length then
         [⟨⟨i, ((parseDataLineIdx (removeEndOfLineComment lt)).getD
                  info.parameters.length (0, [])).1⟩,
           ⟨i, (removeEndOfLineComment lt).length⟩,
           tooManyMsg info.parameters.length
             (parseDataLine (removeEndOfLineComment lt)).length
             ((parseDataLine (removeEndOfLineComment lt)).length - info.parameters.length),
           Severity.error⟩]
       else if (parseDataLine (removeEndOfLineComment lt)).length < info.parameters.length then
         [⟨⟨i, 0⟩, ⟨i, (removeEndOfLineComment lt).length⟩,
           missingMsg info.parameters.length
             (parseDataLine (removeEndOfLineComment lt)).length
             (info.parameters.length - (parseDataLine (removeEndOfLineComment lt)).length),
           Severity.warning⟩]
       else []) := by
  unfold dataLineDiags
  dsimp only
  rw [if_neg (by simp [hsub])]
  rw [if_neg (by simp [topen, tclose])]
  rw [if_neg (by rw [hT]; exact hne)]
  rw [if_neg (parseDataLine_ne_nil _ hT hne)]
  by_cases h1 : info.parameters.length < (parseDataLine (removeEndOfLineComment lt)).length
  · rw [if_pos h1, if_pos h1]
    rw [fep_correct (removeEndOfLineComment lt) hWs hT info.parameters.length h1]
    have hpos : (0 : Int) ≤
        (((parseDataLineIdx (removeEndOfLineComment lt)).getD
          info.parameters.length (0, [])).1 : Int) := Int.natCast_nonneg _
    rw [if_pos (by omega)]
    rw [if_neg (by omega)]
    rw [List.append_nil, Int.toNat_natCast]
  · rw [if_neg h1, if_neg h1]
    rw [List.nil_append]

/-! ## Claims -/

/-- Claim C10: an opening SUBDATA tag is recognized only when the tag
name is followed by whitespace before `>`: the recognizer rejects a bare
`<SUBDATA>` and accepts `<SUBDATA NAME>`; the backward region scan
treats a `<SUBDATA>` line as an ordinary line (it continues, result
`cont`) while a `<SUBDATA NAME>` line makes it return `true`; and in a
document whose data body follows a bare `<SUBDATA>` line the field-count
validation still fires, while after `<SUBDATA X>` it is suppressed. -/
theorem claim_C10 :
    matchSubdataOpen (cl "<SUBDATA>") = false ∧
    matchSubdataOpen (cl "<SUBDATA NAME>") = true ∧
    (∀ (doc : List (List Char)) (i : Nat) (cont : Bool),
      trimJS (lineAt doc i) = cl "<SUBDATA>" → sdStep doc i cont = cont) ∧
    (∀ (doc : List (List Char)) (i : Nat) (cont : Bool),
      trimJS (lineAt doc i) = cl "<SUBDATA NAME>" → sdStep doc i cont = true) ∧
    validateDocument [cl "Bus (Number)", cl "\x7b", cl "<SUBDATA>", cl "1 2", cl "\x7d"] =
      [⟨⟨3, 2⟩, ⟨3, 3⟩, tooManyMsg 1 2 1, Severity.error⟩] ∧
    validateDocument [cl "Bus (Number)", cl "\x7b", cl "<SUBDATA X>", cl "1 2", cl "\x7d"] = [] := by
  refine ⟨by decide, by decide, ?_, ?_, by decide, by decide⟩
  · intro doc i cont h
    unfold sdStep
    rw [h]
    rw [if_neg (by decide), if_neg (by decide), if_neg (by decide)]
  · intro doc i cont h
    unfold sdStep
    rw [h]
    rw [if_neg (by decide), if_pos (by decide)]

/-- Witness for C10 at a concrete document. -/
theorem claim_C10_witness :
    sdStep [cl "<SUBDATA>"] 0 true = true ∧ sdStep [cl "<SUBDATA NAME>"] 0 false = true :=
  ⟨claim_C10.2.2.1 [cl "<SUBDATA>"] 0 true (by decide),
   claim_C10.2.2.2.1 [cl "<SUBDATA NAME>"] 0 false (by decide)⟩

/-- Claim C9: `provideHover` yields no hover when the enclosing header
cannot be resolved, when the cursor is on no field, and when the cursor
field's index is at or beyond the resolved parameter count. -/
theorem claim_C9 : ∀ (doc : List (List Char)) (pl pc : Nat),
    (findDataBlockHeader doc pl = none → provideHover doc pl pc = none) ∧
    (findFieldAtPosition (lineAt doc pl) (pc : Int) = -1 → provideHover doc pl pc = none) ∧
    (∀ info, findDataBlockHeader doc pl = some info →
      findFieldAtPosition (lineAt doc pl) (pc : Int) ≥ (info.parameters.length : Int) →
      provideHover doc pl pc = none) := by
  intro doc pl pc
  refine ⟨?_, ?_, ?_⟩
  · intro h
    unfold provideHover
    repeat' split
    all_goals simp_all
  · intro h
    unfold provideHover
    repeat' split
    all_goals simp_all
  · intro info hinfo hge
    unfold provideHover
    repeat' split
    all_goals simp_all

/-- Witness for C9 at a concrete document and position. -/
theorem claim_C9_witness : provideHover [cl "Bus (Number, Name)", cl "1 \"Alpha\" 2"] 1 10 = none :=
  (claim_C9 [cl "Bus (Number, Name)", cl "1 \"Alpha\" 2"] 1 10).2.2
    ⟨cl "Bus", [cl "Number", cl "Name"]⟩ (by decide) (by decide)

/-- Claim C8: after processing any prefix of any document the two flags
`insideScriptBlock` and `insideDataBlock` are never both true. -/
theorem claim_C8 : ∀ (doc : List (List Char)) (k : Nat),
    ((stateAfter doc k).insideScriptBlock && (stateAfter doc k).insideDataBlock) = false := by
  intro doc k
  exact runLines_flags doc (doc.take k) 0 initVState rfl

/-- Claim C6: the quote-aware tokenizer never yields an empty field;
`parseDataLine "A \"B C\" D"` keeps the quoted segment as one field with
quotes retained; and a `\"`-escaped quote does not toggle quote state,
so the space after it still separates fields. -/
theorem claim_C6 :
    (∀ (s f : List Char), f ∈ parseDataLine s → f ≠ []) ∧
    parseDataLine (cl "A \"B C\" D") = [cl "A", cl "\"B C\"", cl "D"] ∧
    parseDataLine (cl "A \\\"B C") = [cl "A", cl "\\\"B", cl "C"] := by
  refine ⟨?_, by decide, by decide⟩
  intro s f hf
  exact pdlGo_ne_nil s none false [] f hf

/-- Witness for C6 at a concrete line. -/
theorem claim_C6_witness : (cl "A" : List Char) ≠ [] :=
  claim_C6.1 (cl "A \"B C\" D") (cl "A") (by decide)

/-- Counterexample to C2 as stated: line 1 `DATA(xyz)` is a `DATA(`
line (matchDataParen holds) that does not match the
`DATA(name, [params])` shape, so by the claim the backward scan from
line 2 should stop there and return none; instead it continues above it
and resolves the `Bus` header. -/
theorem claim_C2_counterexample :
    matchDataParen (cl "DATA(xyz)") = true ∧
    matchDataHeaderFull (cl "DATA(xyz)") = none ∧
    findDataBlockHeader [cl "Bus (Number, Name)", cl "DATA(xyz)", cl "1 2"] 2 =
      some ⟨cl "Bus", [cl "Number", cl "Name"]⟩ := by decide

/-- Claim C2 (amended): the backward scan of `findDataBlockHeader`
stops and returns none, never inspecting lines above, when it hits a
standalone `}` line, or a bare `name(` line (name not `data`) whose
parameter extraction is empty; but a `DATA(` line that did not match
the `DATA(name, [params])` shape is not a boundary: the scan skips it
and continues with the lines above (its result is exactly the
continuation's result). -/
theorem claim_C2_amended : ∀ (doc : List (List Char)) (i : Nat) (cont : Option HeaderInfo),
    (trimJS (lineAt doc i) = cl "\x7d" → fdbhStep doc i cont = none) ∧
    (∀ nm, matchDataHeaderFull (lineAt doc i) = none →
      matchNameParenLeading (lineAt doc i) = some nm → lowerChars nm ≠ cl "data" →
      extractParameters doc i = [] → fdbhStep doc i cont = none) ∧
    (matchDataParen (lineAt doc i) = true → matchDataHeaderFull (lineAt doc i) = none →
      fdbhStep doc i cont = cont) :=
  fun doc i cont =>
    ⟨fdbhStep_stops_rbrace doc i cont,
     fun nm h1 h2 h3 h4 => fdbhStep_stops_unresolved doc i cont nm h1 h2 h3 h4,
     fun h1 h2 => fdbhStep_continues_data doc i cont h1 h2⟩

/-- Counterexample to C3 as stated: the document `SCRIPT Test {` /
` Delete(Bus)` — whose second line contains no `}`, is no SCRIPT header
and no DATA/function header (it is indented, so the column-0 rule does
not fire) — produces TWO diagnostics, not exactly one: the
missing-semicolon Error on line 1 in addition to the unclosed-block
Error on line 0. -/
theorem claim_C3_counterexample :
    ((cl " Delete(Bus)").contains '\x7d' = false ∧
     (detectScriptBlock (cl " Delete(Bus)") 0).stype = SType.noneT ∧
     (detectDataBlock (cl " Delete(Bus)")).dtype = DType.noneT) ∧
    validateDocument [cl "SCRIPT Test \x7b", cl " Delete(Bus)"] =
      [⟨⟨1, 12⟩, ⟨1, 12⟩, semicolonMsg, Severity.error⟩,
       ⟨⟨0, 0⟩, ⟨0, 13⟩, unclosedScriptMsg (cl "Test"), Severity.error⟩] := by decide

/-- Claim C3 (amended): a document `SCRIPT Test {` followed by lines
with no `}`, no SCRIPT or block headers, and no content that triggers
the script statement check (no function-call-shaped statement, in the
line itself or after a leading brace) produces exactly one diagnostic:
an Error on line 0 naming "Test" as missing its closing brace.  In
general any SCRIPT or DATA block still marked unclosed at the end of
the scan is flushed as an Error diagnostic on its header line. -/
theorem claim_C3_amended :
    (∀ rest : List (List Char),
      (∀ l ∈ rest, '\x7d' ∉ l ∧ (detectScriptBlock l 0).stype = SType.noneT ∧
        (detectDataBlock l).dtype = DType.noneT ∧ validateScriptLine l 0 = [] ∧
        validateScriptLine (jsSubstringFrom (trimJS l) (jsIndexOfChar (trimJS l) '\x7b' + 1)) 0 = []) →
      validateDocument (cl "SCRIPT Test \x7b" :: rest) =
        [⟨⟨0, 0⟩, ⟨0, 13⟩, unclosedScriptMsg (cl "Test"), Severity.error⟩]) ∧
    (∀ (doc : List (List Char)) (k : Nat) (n : List Char),
      (runLines doc 0 doc initVState).1.unclosedScriptBlock = some (k, n) →
      (⟨⟨k, 0⟩, ⟨k, (lineAt doc k).length⟩, unclosedScriptMsg n, Severity.error⟩ : Diag)
        ∈ validateDocument doc) ∧
    (∀ (doc : List (List Char)) (k : Nat) (n : List Char),
      (runLines doc 0 doc initVState).1.unclosedDataBlock = some (k, n) →
      (⟨⟨k, 0⟩, ⟨k, (lineAt doc k).length⟩, unclosedDataMsg n, Severity.error⟩ : Diag)
        ∈ validateDocument doc) := by
  refine ⟨?_, ?_, ?_⟩
  · intro rest H
    unfold validateDocument
    have h0 : processLine (cl "SCRIPT Test \x7b" :: rest) 0 (cl "SCRIPT Test \x7b") initVState
        = (⟨false, true, none, some (0, cl "Test"), none⟩, []) := rfl
    simp only [runLines]
    rw [h0]
    dsimp only
    rw [runLines_script_quiet _ rest 1 _ rfl
      (fun l hl => ⟨(H l hl).1, (H l hl).2.1, (H l hl).2.2.2.1, (H l hl).2.2.2.2⟩)]
    rfl
  · intro doc k n h
    unfold validateDocument
    dsimp only
    rw [List.mem_append]
    right
    unfold flushUnclosed
    rw [h]
    simp
  · intro doc k n h
    unfold validateDocument
    dsimp only
    rw [List.mem_append]
    right
    unfold flushUnclosed
    rw [h]
    rcases (runLines doc 0 doc initVState).1.unclosedScriptBlock with _ | p <;> simp

/-- Witness for the amended C3 at the minimal concrete document. -/
theorem claim_C3_amended_witness :
    validateDocument [cl "SCRIPT Test \x7b"] =
      [⟨⟨0, 0⟩, ⟨0, 13⟩, unclosedScriptMsg (cl "Test"), Severity.error⟩] :=
  claim_C3_amended.1 [] (fun l hl => absurd hl (List.not_mem_nil l))

/-- Counterexample to C4 as stated: for the script line
`Delete(Bus) // a // b` the position immediately after the last
non-comment character is 11 (the comment starts at the first `//`
outside quotes), but `validateScriptLine` places the missing-semicolon
error at character 16, because it cuts at the LAST literal `//`. -/
theorem claim_C4_counterexample :
    posAfterLastNonComment (cl "Delete(Bus) // a // b") = 11 ∧
    validateScriptLine (cl "Delete(Bus) // a // b") 0 =
      [⟨⟨0, 16⟩, ⟨0, 16⟩, semicolonMsg, Severity.error⟩] := by decide

/-- Claim C4 (amended): for every script line, with the comment-stripped
(optionally brace-unwrapped) content: if it matches the function-call
shape and does not end with `;`, exactly the Error "Function call in
SCRIPT block must end with a semicolon (;)" is emitted, at the position
obtained by cutting the raw line at its last literal `//` occurrence
(end of line when none) and trimming trailing whitespace — not
necessarily after the last non-comment character when the line has
several `//` or a quoted `//`; if the content ends with `;`, no
diagnostic is emitted.  In particular the three-line document
`SCRIPT Test {` / `Delete(Bus)` / `}` yields the Error on line 1, and
`Delete(Bus);` removes it. -/
theorem claim_C4_amended :
    (∀ (line : List Char) (i : Nat),
      (trimJS line ≠ [] → trimJS line ≠ cl "\x7b" → trimJS line ≠ cl "\x7d" →
        (matchNameParenCol0 (vslContent line)).isSome = true →
        endsWithChar (vslContent line) ';' = false →
        validateScriptLine line i =
          [⟨⟨i, vslPos line⟩, ⟨i, vslPos line⟩, semicolonMsg, Severity.error⟩]) ∧
      (endsWithChar (vslContent line) ';' = true → validateScriptLine line i = [])) ∧
    validateDocument [cl "SCRIPT Test \x7b", cl "Delete(Bus)", cl "\x7d"] =
      [⟨⟨1, 11⟩, ⟨1, 11⟩, semicolonMsg, Severity.error⟩] ∧
    validateDocument [cl "SCRIPT Test \x7b", cl "Delete(Bus);", cl "\x7d"] = [] :=
  ⟨fun line i =>
    ⟨fun h1 h2 h3 h4 h5 => validateScriptLine_fires line i h1 h2 h3 h4 h5,
     fun h => validateScriptLine_semicolon line i h⟩,
   by decide, by decide⟩

/-- Witness for the amended C4 at a concrete script line. -/
theorem claim_C4_amended_witness :
    validateScriptLine (cl "Delete(Bus)") 5 =
      [⟨⟨5, 11⟩, ⟨5, 11⟩, semicolonMsg, Severity.error⟩] ∧
    validateScriptLine (cl "Delete(Bus);") 5 = [] :=
  ⟨(claim_C4_amended.1 (cl "Delete(Bus)") 5).1 (by decide) (by decide) (by decide)
      (by decide) (by decide),
   (claim_C4_amended.1 (cl "Delete(Bus);") 5).2 (by decide)⟩

/-- Witness for the amended C2 at concrete lines. -/
theorem claim_C2_amended_witness :
    fdbhStep [cl "\x7d"] 0 (some ⟨cl "Bus", [cl "Number"]⟩) = none ∧
    fdbhStep [cl "DATA(xyz)"] 0 (some ⟨cl "Bus", [cl "Number"]⟩) =
      some ⟨cl "Bus", [cl "Number"]⟩ :=
  ⟨(claim_C2_amended [cl "\x7d"] 0 (some ⟨cl "Bus", [cl "Number"]⟩)).1 (by decide),
   (claim_C2_amended [cl "DATA(xyz)"] 0 (some ⟨cl "Bus", [cl "Number"]⟩)).2.2
     (by decide) (by decide)⟩

/-- Counterexample to C7 as stated: on the buffer `}{` / `x` starting
at line 0 the running count goes -1 then back to 0 on line 0 (its first
return to zero), but `findClosingBrace` returns only on a `}` decrement
reaching zero, so it never triggers and yields the sentinel 1. -/
theorem claim_C7_counterexample :
    claimFirstZeroLine [cl "\x7d\x7b", cl "x"] 0 = some 0 ∧
    findClosingBrace [cl "\x7d\x7b", cl "x"] 0 = 1 := by decide

/-- Claim C7 (amended): `findClosingBrace` returns the first line at
or after `startLine` on which a `}` decrement brings the running brace
count to zero (not merely any return of the count to zero), and the
last line index as the unterminated sentinel when no such line exists;
for `startLine` within bounds the result always lies between
`startLine` and `lines.length - 1`. -/
theorem claim_C7_amended : ∀ (lines : List (List Char)) (startLine : Nat),
    findClosingBrace lines startLine =
      (specCloseGo 0 startLine (lines.drop startLine)).getD (lines.length - 1) ∧
    (startLine < lines.length →
      startLine ≤ findClosingBrace lines startLine ∧
      findClosingBrace lines startLine ≤ lines.length - 1) := by
  intro lines s
  constructor
  · unfold findClosingBrace
    rw [fcbScan_eq_spec]
    rcases specCloseGo 0 s (lines.drop s) with _ | j <;> rfl
  · intro hs
    unfold findClosingBrace
    rcases hj : fcbScan 0 s (lines.drop s) with _ | j
    · constructor
      · show s ≤ lines.length - 1
        omega
      · exact Nat.le_refl _
    · obtain ⟨h1, h2⟩ := fcbScan_bounds (lines.drop s) 0 s j hj
      rw [List.length_drop] at h2
      constructor
      · show s ≤ j
        exact h1
      · show j ≤ lines.length - 1
        omega

/-- Witness for the amended C7 at a concrete buffer and start line. -/
theorem claim_C7_amended_witness :
    0 < ([cl "SCRIPT T \x7b", cl "x", cl "\x7d"] : List (List Char)).length ∧
    0 ≤ findClosingBrace [cl "SCRIPT T \x7b", cl "x", cl "\x7d"] 0 ∧
    findClosingBrace [cl "SCRIPT T \x7b", cl "x", cl "\x7d"] 0 ≤ 2 :=
  ⟨by decide, (claim_C7_amended [cl "SCRIPT T \x7b", cl "x", cl "\x7d"] 0).2 (by decide)⟩

/-- Claim C5: for every document and every line lying inside a SUBDATA
region, `validateDocument` emits no field-count diagnostic ("Too many
fields" / "Missing fields") whose range starts on that line, regardless
of the enclosing header's parameter count. -/
theorem claim_C5 : ∀ (doc : List (List Char)) (i : Nat) (d : Diag),
    isInsideSubdataBlock doc i = true → d ∈ validateDocument doc →
    d.startPos.line = i → isFieldCountMsg d.message = false := by
  intro doc i d hsub hd hline
  rcases Bool.eq_false_or_eq_true (isFieldCountMsg d.message) with hf | hf
  · exfalso
    unfold validateDocument at hd
    dsimp only at hd
    rw [List.mem_append] at hd
    rcases hd with hd | hd
    · have hx := runLines_fieldMsg doc doc 0 initVState d hd hf
      rw [hline] at hx
      exact bool_absurd hsub hx
    · exact bool_absurd hf (fieldMsg_flushUnclosed doc _ d hd)
  · exact hf

/-- Witness for C5: a SCRIPT header line lying inside a SUBDATA region
carries an unclosed-block Error, which is not a field-count message. -/
theorem claim_C5_witness :
    isFieldCountMsg ((⟨⟨3, 0⟩, ⟨3, 10⟩, unclosedScriptMsg (cl "T"),
      Severity.error⟩ : Diag).message) = false :=
  claim_C5 [cl "Bus (N)", cl "\x7b", cl "<SUBDATA S>", cl "SCRIPT T \x7b"] 3
    ⟨⟨3, 0⟩, ⟨3, 10⟩, unclosedScriptMsg (cl "T"), Severity.error⟩
    (by decide) (by decide) (by decide)

/-- Counterexample to Claim C1: on the data line `a<TAB> b` under a
one-parameter header, the extra-field Error range starts at character 1
(just after the first field, where `findExtraFieldPosition` stops at the
tab), not at character 3, the recorded offset of the first extra token
`b`; the comment stripper leaves the line unchanged, so the divergence
is genuine. -/
theorem claim_C1_counterexample :
    validateDocument [cl "Bus (Number)", cl "\x7b", cl "a\t b", cl "\x7d"] =
      [⟨⟨2, 1⟩, ⟨2, 4⟩, tooManyMsg 1 2 1, Severity.error⟩] ∧
    (parseDataLineIdx (cl "a\t b")).map Prod.fst = [0, 3] ∧
    removeEndOfLineComment (cl "a\t b") = cl "a\t b" :=
  ⟨by decide, by decide, by decide⟩

/-- Claim C1 (amended): for a non-comment, non-blank line processed in
the resolved-data-block state that is no script header, no brace line,
no closing brace, not inside a SUBDATA region and no SUBDATA tag, and
whose comment-stripped text contains no whitespace other than plain
spaces, the validator emits: an Error starting at the first extra
token's offset and ending at the end of the comment-stripped line when
the token count exceeds the parameter count; a Warning spanning the
whole comment-stripped line when it falls short; and nothing when the
counts agree. -/
theorem claim_C1_amended (doc : List (List Char)) (i : Nat) (line : List Char)
    (st : VState) (info : HeaderInfo)
    (hsb : st.insideScriptBlock = false) (hdb : st.insideDataBlock = true)
    (hinfo : st.currentDataBlockInfo = some info)
    (hnc : strStarts (cl "//") (trimJS line) = false)
    (hnb : trimJS line ≠ [])
    (hscript : (detectScriptBlock line i).stype = SType.noneT)
    (hbrace : strStarts (cl "\x7b") (trimJS line) = false)
    (hclose : trimJS line ≠ cl "\x7d")
    (hsub : isInsideSubdataBlock doc i = false)
    (topen : matchSubdataOpen (trimJS line) = false)
    (tclose : matchSubdataClose (trimJS line) = false)
    (hWs : ∀ c ∈ removeEndOfLineComment (trimJS line), isSpaceJS c = true → c = ' ') :
    (processLine doc i line st).2 =
      (if info.parameters.length <
          (parseDataLine (removeEndOfLineComment (trimJS line))).length then
         [⟨⟨i, ((parseDataLineIdx (removeEndOfLineComment (trimJS line))).getD
                  info.parameters.length (0, [])).1⟩,
           ⟨i, (removeEndOfLineComment (trimJS line)).length⟩,
           tooManyMsg info.parameters.length
             (parseDataLine (removeEndOfLineComment (trimJS line))).length
             ((parseDataLine (removeEndOfLineComment (trimJS line))).length -
               info.parameters.length),
           Severity.error⟩]
       else if (parseDataLine (removeEndOfLineComment (trimJS line))).length <
          info.parameters.length then
         [⟨⟨i, 0⟩, ⟨i, (removeEndOfLineComment (trimJS line)).length⟩,
           missingMsg info.parameters.length
             (parseDataLine (removeEndOfLineComment (trimJS line))).length
             (info.parameters.length -
               (parseDataLine (removeEndOfLineComment (trimJS line))).length),
           Severity.warning⟩]
       else []) := by
  rw [processLine_dataBranch doc i line st info hsb hdb hinfo hnc hnb hscript hbrace hclose]
  exact dataLineDiags_eval doc i info (trimJS line) hsub topen tclose
    (reol_trim line) (removeEndOfLineComment_ne_nil (trimJS line) (trim_idem line) hnc hnb) hWs

/-- Witness for the amended C1 at the line `1 2` under a one-parameter
header: the Error starts at offset 2, the position of the extra token
`2`. -/
theorem claim_C1_amended_witness :
    (processLine [cl "1 2"] 0 (cl "1 2")
        ⟨true, false, some ⟨cl "Bus", [cl "Number"]⟩, none, none⟩).2 =
      [⟨⟨0, 2⟩, ⟨0, 3⟩, tooManyMsg 1 2 1, Severity.error⟩] := by
  rw [claim_C1_amended [cl "1 2"] 0 (cl "1 2")
      ⟨true, false, some ⟨cl "Bus", [cl "Number"]⟩, none, none⟩ ⟨cl "Bus", [cl "Number"]⟩
      rfl rfl rfl (by decide) (by decide) (by decide) (by decide) (by decide) (by decide)
      (by decide) (by decide) (by decide)]
  decide

